import Mathlib

/-!
Verification development for the ProfDash AI-service multi-agent
orchestration engine (`app/agents/orchestrator.py`, `app/agents/registry.py`,
`app/agents/types.py`).

The Python source is shallowly embedded: pydantic models become structures,
enum literals become inductive types, `dict[str, Any]` values become an
inductive `Value` type together with association lists, asynchronous provider
calls become explicit outcome oracles (`Nat → Outcome`), and exceptions become
`Except`/`Option` results.  Machine-level aspects (wall-clock time,
`uuid.uuid4()` freshness) are passed in as explicit parameters.
-/

namespace ProfDash

/-- Embedding of the `AgentType` enum from `app/agents/types.py`. -/
inductive AgentType where
  | task
  | project
  | grant
  | research
  | calendar
  | writing
  | personnel
  | planner
  | orchestratorT
  deriving DecidableEq, Repr

/-- Python `str()` rendering of an `AgentType` enum member (used in error
messages such as `f"Unknown agent type: {request.agent_type}"`). -/
def AgentType.pyName : AgentType → String
  | .task => "AgentType.TASK"
  | .project => "AgentType.PROJECT"
  | .grant => "AgentType.GRANT"
  | .research => "AgentType.RESEARCH"
  | .calendar => "AgentType.CALENDAR"
  | .writing => "AgentType.WRITING"
  | .personnel => "AgentType.PERSONNEL"
  | .planner => "AgentType.PLANNER"
  | .orchestratorT => "AgentType.ORCHESTRATOR"

/-- Embedding of the `AgentStatus` enum from `app/agents/types.py`. -/
inductive AgentStatus where
  | idle
  | planning
  | executing
  | awaiting_feedback
  | completed
  | failed
  deriving DecidableEq, Repr

/-- Step-result statuses (`WorkflowStepResult.status` literal in
`app/agents/types.py`). -/
inductive StepStatus where
  | pending
  | running
  | completed
  | failed
  | skipped
  deriving DecidableEq, Repr

/-- Per-step error policy (`WorkflowStep.on_error` literal). -/
inductive OnError where
  | fail
  | skip
  | fallback
  deriving DecidableEq, Repr

/-- Workflow-level error handling mode (`WorkflowDefinition.error_handling`). -/
inductive ErrorHandling where
  | fail_fast
  | continueH
  | retryH
  | fallbackH
  deriving DecidableEq, Repr

/-- Condition kind (`WorkflowCondition.type` literal `always|if|unless`). -/
inductive CondKind where
  | always
  | condIf
  | condUnless
  deriving DecidableEq, Repr

/-- Embedding of Python `Any` values as they occur in step inputs and
outputs: strings, ints, bools, `None`, dicts and lists. -/
inductive Value where
  | vstr (s : String)
  | vint (n : Int)
  | vbool (b : Bool)
  | vnone
  | vdict (entries : List (String × Value))
  | vlist (items : List Value)

/-- A Python `dict[str, Any]`, embedded as an association list in insertion
order (Python dicts preserve insertion order and have unique keys). -/
abbrev Dict := List (String × Value)

/-- Python truthiness (`bool(v)`) for embedded values. -/
def Value.truthy : Value → Bool
  | .vstr s => s ≠ ""
  | .vint n => n ≠ 0
  | .vbool b => b
  | .vnone => false
  | .vdict entries => !entries.isEmpty
  | .vlist items => !items.isEmpty

mutual

/-- Python `repr()` of an embedded value (strings quoted), used inside
container renderings. -/
def Value.pyRepr : Value → String
  | .vstr s => "'" ++ s ++ "'"
  | .vint n => toString n
  | .vbool b => if b then "True" else "False"
  | .vnone => "None"
  | .vdict entries => "\x7b" ++ Value.pyReprEntries entries ++ "\x7d"
  | .vlist items => "[" ++ Value.pyReprItems items ++ "]"

/-- Comma-separated `repr` of dict entries. -/
def Value.pyReprEntries : List (String × Value) → String
  | [] => ""
  | [(k, v)] => "'" ++ k ++ "': " ++ Value.pyRepr v
  | (k, v) :: rest => "'" ++ k ++ "': " ++ Value.pyRepr v ++ ", " ++ Value.pyReprEntries rest

/-- Comma-separated `repr` of list items. -/
def Value.pyReprItems : List Value → String
  | [] => ""
  | [v] => Value.pyRepr v
  | v :: rest => Value.pyRepr v ++ ", " ++ Value.pyReprItems rest

end

/-- Python `str()` of an embedded value (top level: strings unquoted). -/
def Value.pyStr : Value → String
  | .vstr s => s
  | v => v.pyRepr

/-- First-match lookup in an association list, i.e. Python `d[k]` /
`k in d` on dicts with unique keys. -/
def dictFind (d : Dict) (k : String) : Option Value :=
  (d.find? (fun p => p.1 = k)).map (·.2)

/-- Embedding of `WorkflowCondition` (`app/agents/types.py`). -/
structure WorkflowCondition where
  type : CondKind
  expression : Option String := none
  deriving DecidableEq, Repr

/-- Embedding of `WorkflowStep` (`app/agents/types.py`).  The wall-clock
`timeout` field is carried but timing itself is abstracted by the attempt
oracle. -/
structure WorkflowStep where
  id : String
  name : String
  agent : AgentType
  action : String
  input : Dict
  depends_on : List String := []
  condition : Option WorkflowCondition := none
  timeout : Option Int := none
  retries : Int := 0
  on_error : OnError := .fail
  fallback_agent : Option AgentType := none

/-- Embedding of `WorkflowDefinition` (`app/agents/types.py`). -/
structure WorkflowDefinition where
  id : String
  name : String
  description : String := ""
  steps : List WorkflowStep
  error_handling : ErrorHandling := .fail_fast
  timeout : Option Int := none

/-- Embedding of `WorkflowStepResult` (`app/agents/types.py`); the
`execution_time_ms` field is wall-clock time and is not modelled. -/
structure WorkflowStepResult where
  step_id : String
  status : StepStatus
  output : Option Dict := none
  error : Option String := none
  agent_type : AgentType

/-- The mutable part of `WorkflowExecution` used by the engine:
`step_results` is a Python dict in insertion order. -/
structure Execution where
  step_results : List (String × WorkflowStepResult) := []
  current_step : Option String := none

/-- Lookup of a recorded step result (`execution.step_results[step_id]`). -/
def Execution.find (ex : Execution) (sid : String) : Option WorkflowStepResult :=
  (ex.step_results.find? (fun p => p.1 = sid)).map (·.2)

/-- Python dict assignment `execution.step_results[k] = v`: replace in place
if the key exists, else append. -/
def setResult (rs : List (String × WorkflowStepResult)) (k : String)
    (v : WorkflowStepResult) : List (String × WorkflowStepResult) :=
  if rs.any (fun p => p.1 = k) then
    rs.map (fun p => if p.1 = k then (k, v) else p)
  else rs ++ [(k, v)]

/-! ## Topological sort (`AgentOrchestrator._topological_sort`) -/

/-- Lookup in the `in_degree` association list. -/
def degLookup (m : List (String × Int)) (k : String) : Option Int :=
  (m.find? (fun p => p.1 = k)).map (·.2)

/-- Python `in_degree[step_id] -= 1`: decrement the entry with the given
key. -/
def degDec (m : List (String × Int)) (k : String) : List (String × Int) :=
  m.map (fun p => if p.1 = k then (p.1, p.2 - 1) else p)

/-- Inner `for step_id, deps in graph.items()` body of the Kahn loop:
for every graph entry whose dependency list contains `current`, decrement its
in-degree and enqueue it when the in-degree reaches zero. -/
def kahnVisit (graph : List (String × List String)) (current : String)
    (st : List (String × Int) × List String) : List (String × Int) × List String :=
  graph.foldl
    (fun acc p =>
      if current ∈ p.2 then
        let indeg := degDec acc.1 p.1
        if degLookup indeg p.1 = some 0 then (indeg, acc.2 ++ [p.1])
        else (indeg, acc.2)
      else acc)
    st

/-- The `while queue:` loop of `_topological_sort`.  `fuel` bounds the number
of iterations; the Python loop performs at most one iteration per enqueued id
and every id is enqueued at most once, so `fuel = steps.length` is exact
(established by `kahnLoop_final` below). -/
def kahnLoop (graph : List (String × List String)) :
    Nat → List String → List (String × Int) → List String → List String
  | _, [], _, result => result
  | 0, _ :: _, _, result => result
  | fuel + 1, current :: queue, indeg, result =>
      let st := kahnVisit graph current (indeg, queue)
      kahnLoop graph fuel st.2 st.1 (result ++ [current])

/-- Embedding of `AgentOrchestrator._topological_sort`
(`orchestrator.py:415-438`).  The raised `ValueError` becomes an `Except`
error. -/
def topologicalSort (steps : List WorkflowStep) : Except String (List String) :=
  let graph := steps.map (fun s => (s.id, s.depends_on))
  let in_degree : List (String × Int) := steps.map (fun s => (s.id, (s.depends_on.length : Int)))
  let queue := (in_degree.filter (fun p => p.2 = 0)).map (·.1)
  let result := kahnLoop graph steps.length queue in_degree []
  if result.length = steps.length then .ok result
  else .error "Circular dependency detected in workflow steps"

/-- The step-id list of a workflow step list. -/
def stepIds (steps : List WorkflowStep) : List String := steps.map (·.id)

/-- Dependency list of an id: the `depends_on` of the (first) step carrying
that id. -/
def depsOf (steps : List WorkflowStep) (a : String) : List String :=
  ((steps.find? (fun s => s.id = a)).map (·.depends_on)).getD []

/-- The dependency edge relation of a workflow: `stepEdge steps a b` holds
when some step with id `a` lists `b` in its `depends_on`. -/
def stepEdge (steps : List WorkflowStep) (a b : String) : Prop :=
  ∃ s ∈ steps, s.id = a ∧ b ∈ s.depends_on

/-- Number of graph entries with key `k` whose dependency list contains
`current` (the number of decrements key `k` receives while `current` is
processed). -/
def matchCount (g : List (String × List String)) (current : String) (k : String) : Int :=
  ((g.filter (fun e => e.1 = k ∧ current ∈ e.2)).length : Int)

theorem degLookup_cons (p : String × Int) (m : List (String × Int)) (k : String) :
    degLookup (p :: m) k = if p.1 = k then some p.2 else degLookup m k := by
  by_cases h : p.1 = k
  · simp [degLookup, List.find?_cons_of_pos, h]
  · simp [degLookup, List.find?_cons_of_neg, h]

theorem degDec_cons (p : String × Int) (m : List (String × Int)) (k : String) :
    degDec (p :: m) k = (if p.1 = k then (p.1, p.2 - 1) else p) :: degDec m k := by
  simp [degDec]

theorem degLookup_degDec_self (m : List (String × Int)) (k : String) :
    degLookup (degDec m k) k = (degLookup m k).map (· - 1) := by
  induction m with
  | nil => rfl
  | cons p m ih =>
      rw [degDec_cons, degLookup_cons, degLookup_cons]
      by_cases h : p.1 = k
      · simp [h]
      · simp [h, ih]

theorem degLookup_degDec_ne (m : List (String × Int)) {k k' : String} (h : k ≠ k') :
    degLookup (degDec m k') k = degLookup m k := by
  induction m with
  | nil => rfl
  | cons p m ih =>
      rw [degDec_cons, degLookup_cons, degLookup_cons]
      by_cases hp : p.1 = k'
      · have hne : k' ≠ k := fun hh => h hh.symm
        have : p.1 ≠ k := by rw [hp]; exact hne
        simp [hp, this, ih, hne]
      · by_cases hk : p.1 = k
        · simp [hp, hk, h]
        · simp [hp, hk, ih]

theorem matchCount_cons (e : String × List String) (g : List (String × List String))
    (current k : String) :
    matchCount (e :: g) current k =
      (if e.1 = k ∧ current ∈ e.2 then 1 else 0) + matchCount g current k := by
  by_cases h : e.1 = k ∧ current ∈ e.2 <;> simp [matchCount, h] <;> push_cast <;> ring

/-- Effect of the inner decrement/enqueue loop: every in-degree drops by its
match count, and exactly the keys whose in-degree was `1` and whose
dependency list contains `current` are appended to the queue, in graph
order. -/
theorem kahnVisit_spec (current : String) :
    ∀ (g : List (String × List String)) (m : List (String × Int)) (q : List String),
      (g.map Prod.fst).Nodup →
      kahnVisit g current (m, q) =
        (m.map (fun p => (p.1, p.2 - matchCount g current p.1)),
         q ++ (g.filter (fun e => current ∈ e.2 ∧ degLookup m e.1 = some 1)).map (·.1)) := by
  intro g
  induction g with
  | nil => intro m q _; simp [kahnVisit, matchCount]
  | cons e g ih =>
      intro m q hnd
      have hnd' : (g.map Prod.fst).Nodup := (List.nodup_cons.mp hnd).2
      have hfresh : ∀ e' ∈ g, e'.1 ≠ e.1 := by
        intro e' he' heq
        exact (List.nodup_cons.mp hnd).1 (heq ▸ List.mem_map_of_mem Prod.fst he')
      have hself : (degLookup (degDec m e.1) e.1 = some 0) ↔ (degLookup m e.1 = some 1) := by
        rw [degLookup_degDec_self]
        cases h : degLookup m e.1 with
        | none => simp
        | some v => simp; omega
      by_cases hc : current ∈ e.2
      · have hstep : kahnVisit (e :: g) current (m, q) =
            kahnVisit g current
              (degDec m e.1,
               if degLookup (degDec m e.1) e.1 = some 0 then q ++ [e.1] else q) := by
          simp only [kahnVisit, List.foldl_cons, hc, if_pos]
          by_cases h0 : degLookup (degDec m e.1) e.1 = some 0 <;> simp [h0]
        rw [hstep, ih _ _ hnd']
        simp only [Prod.mk.injEq]
        constructor
        · rw [degDec, List.map_map]
          apply List.map_congr_left
          intro p _
          by_cases hp : p.1 = e.1
          · simp only [Function.comp, hp, if_pos rfl]
            rw [matchCount_cons]
            simp only [hp, hc, and_self, if_pos, true_and]
            have : (1 : Int) + matchCount g current e.1 = matchCount g current e.1 + 1 := by ring
            rw [this]
            simp only [Prod.mk.injEq, true_and]
            ring
          · simp only [Function.comp, if_neg hp]
            rw [matchCount_cons]
            have : ¬(e.1 = p.1 ∧ current ∈ e.2) := fun hh => hp hh.1.symm
            simp [this]
        · have hlk : ∀ e' ∈ g, degLookup (degDec m e.1) e'.1 = degLookup m e'.1 := by
            intro e' he'
            exact degLookup_degDec_ne m (hfresh e' he')
          have hfilter :
              g.filter (fun e' => decide (current ∈ e'.2 ∧ degLookup (degDec m e.1) e'.1 = some 1)) =
              g.filter (fun e' => decide (current ∈ e'.2 ∧ degLookup m e'.1 = some 1)) := by
            apply List.filter_congr
            intro e' he'
            simp [hlk e' he']
          rw [hfilter]
          by_cases h1 : degLookup m e.1 = some 1
          · rw [if_pos (hself.mpr h1)]
            simp [List.filter_cons, hc, h1]
          · rw [if_neg (fun h => h1 (hself.mp h))]
            simp [List.filter_cons, hc, h1]
      · have hstep : kahnVisit (e :: g) current (m, q) = kahnVisit g current (m, q) := by
          simp [kahnVisit, List.foldl_cons, hc]
        rw [hstep, ih _ _ hnd']
        simp only [Prod.mk.injEq]
        constructor
        · apply List.map_congr_left
          intro p _
          rw [matchCount_cons]
          simp [hc]
        · simp [List.filter_cons, hc]

/-- Number of dependencies of `dep` not yet recorded in `res` (the value the
Python `in_degree` entry holds once the ids in `res` have been processed). -/
def cnt (dep res : List String) : Int :=
  ((dep.filter (fun d => decide (d ∉ res))).length : Int)

/-- The in-degree map as it stands after the ids in `res` have been popped
from the queue. -/
def canonDeg (steps : List WorkflowStep) (res : List String) : List (String × Int) :=
  steps.map (fun s => (s.id, cnt s.depends_on res))

/-- The adjacency list `graph` built by `_topological_sort`. -/
def graphOf (steps : List WorkflowStep) : List (String × List String) :=
  steps.map (fun s => (s.id, s.depends_on))

theorem cnt_nonneg (dep res : List String) : 0 ≤ cnt dep res := Int.ofNat_nonneg _

theorem cnt_eq_zero_iff (dep res : List String) :
    cnt dep res = 0 ↔ ∀ d ∈ dep, d ∈ res := by
  simp [cnt, List.length_eq_zero, List.filter_eq_nil_iff]

theorem cnt_nil (dep : List String) : cnt dep [] = (dep.length : Int) := by
  simp [cnt]

theorem cnt_append_singleton (dep res : List String) (c : String)
    (hnd : dep.Nodup) (hc : c ∉ res) :
    cnt dep (res ++ [c]) = cnt dep res - (if c ∈ dep then 1 else 0) := by
  induction dep with
  | nil => simp [cnt]
  | cons d dep ih =>
      have hnd' : dep.Nodup := (List.nodup_cons.mp hnd).2
      have ih' := ih hnd'
      by_cases hdc : d = c
      · subst hdc
        have hdnot : d ∉ dep := (List.nodup_cons.mp hnd).1
        have h1 : cnt (d :: dep) (res ++ [d]) = cnt dep (res ++ [d]) := by
          simp [cnt, List.filter_cons]
        have h2 : cnt (d :: dep) res = cnt dep res + 1 := by
          simp [cnt, List.filter_cons, hc]
          try push_cast
          try ring
        rw [h1, ih', h2]
        simp [hdnot]
      · have hcd' : ¬ c = d := fun h => hdc h.symm
        by_cases hdres : d ∈ res
        · have h1 : cnt (d :: dep) (res ++ [c]) = cnt dep (res ++ [c]) := by
            simp [cnt, List.filter_cons, hdres]
          have h2 : cnt (d :: dep) res = cnt dep res := by
            simp [cnt, List.filter_cons, hdres]
          rw [h1, ih', h2]
          simp [hcd']
        · have h1 : cnt (d :: dep) (res ++ [c]) = cnt dep (res ++ [c]) + 1 := by
            simp [cnt, List.filter_cons, hdres, hdc]
            try push_cast
            try ring
          have h2 : cnt (d :: dep) res = cnt dep res + 1 := by
            simp [cnt, List.filter_cons, hdres]
            try push_cast
            try ring
          rw [h1, ih', h2]
          by_cases hcdep : c ∈ dep <;> simp [hcdep, hcd'] <;> try ring

theorem find?_of_mem_nodup {steps : List WorkflowStep} (hnd : (steps.map (·.id)).Nodup)
    {s : WorkflowStep} (hs : s ∈ steps) :
    steps.find? (fun t => t.id = s.id) = some s := by
  induction steps with
  | nil => cases hs
  | cons t steps ih =>
      rcases List.mem_cons.mp hs with h | h
      · subst h
        simp [List.find?_cons_of_pos]
      · have hne : ¬ t.id = s.id := by
          intro he
          have hmem : s.id ∈ steps.map (·.id) := List.mem_map_of_mem (·.id) h
          rw [← he] at hmem
          exact (List.nodup_cons.mp hnd).1 hmem
        rw [List.find?_cons_of_neg _ (by simpa using hne)]
        exact ih (List.nodup_cons.mp hnd).2 h

theorem depsOf_eq {steps : List WorkflowStep} (hnd : (steps.map (·.id)).Nodup)
    {s : WorkflowStep} (hs : s ∈ steps) : depsOf steps s.id = s.depends_on := by
  simp [depsOf, find?_of_mem_nodup hnd hs]

theorem mem_stepIds {steps : List WorkflowStep} {x : String} :
    x ∈ stepIds steps ↔ ∃ s ∈ steps, s.id = x := by
  simp [stepIds, List.mem_map]

theorem stepEdge_iff {steps : List WorkflowStep} (hnd : (steps.map (·.id)).Nodup)
    {a b : String} :
    stepEdge steps a b ↔ a ∈ stepIds steps ∧ b ∈ depsOf steps a := by
  constructor
  · rintro ⟨s, hs, rfl, hb⟩
    exact ⟨mem_stepIds.mpr ⟨s, hs, rfl⟩, (depsOf_eq hnd hs).symm ▸ hb⟩
  · rintro ⟨ha, hb⟩
    rcases mem_stepIds.mp ha with ⟨s, hs, rfl⟩
    exact ⟨s, hs, rfl, (depsOf_eq hnd hs) ▸ hb⟩

theorem degLookup_canonDeg (steps : List WorkflowStep) (res : List String) (x : String) :
    degLookup (canonDeg steps res) x =
      (steps.find? (fun s => s.id = x)).map (fun s => cnt s.depends_on res) := by
  induction steps with
  | nil => rfl
  | cons s steps ih =>
      rw [canonDeg, List.map_cons, degLookup_cons]
      by_cases h : s.id = x
      · rw [List.find?_cons_of_pos _ (by simpa using h)]
        simp [h]
      · rw [List.find?_cons_of_neg _ (by simpa using h)]
        simpa [h, canonDeg] using ih

theorem graphOf_keys (steps : List WorkflowStep) :
    (graphOf steps).map Prod.fst = stepIds steps := by
  simp [graphOf, stepIds, List.map_map, Function.comp]

/-- Characterization of the ids enqueued while `current = c` is processed:
exactly those whose step still had in-degree `1` and depends on `c`. -/
theorem newly_spec (steps : List WorkflowStep) (hnd : (steps.map (·.id)).Nodup)
    (c : String) (res : List String) :
    (((graphOf steps).filter
        (fun e => c ∈ e.2 ∧ degLookup (canonDeg steps res) e.1 = some 1)).map (·.1)).Nodup ∧
    ∀ x, (x ∈ ((graphOf steps).filter
        (fun e => c ∈ e.2 ∧ degLookup (canonDeg steps res) e.1 = some 1)).map (·.1) ↔
      (x ∈ stepIds steps ∧ c ∈ depsOf steps x ∧ cnt (depsOf steps x) res = 1)) := by
  constructor
  · have hsub : (((graphOf steps).filter
        (fun e => c ∈ e.2 ∧ degLookup (canonDeg steps res) e.1 = some 1)).map (·.1)).Sublist
        ((graphOf steps).map Prod.fst) :=
      (List.filter_sublist _).map _
    rw [graphOf_keys] at hsub
    exact hnd.sublist hsub
  · intro x
    constructor
    · intro hx
      rcases List.mem_map.mp hx with ⟨e, he, rfl⟩
      have hmem := List.mem_filter.mp he
      rcases List.mem_map.mp hmem.1 with ⟨s, hs, rfl⟩
      have hcond := hmem.2
      simp only [decide_eq_true_eq] at hcond
      have hfind := find?_of_mem_nodup hnd hs
      have hdeg : degLookup (canonDeg steps res) s.id = some (cnt s.depends_on res) := by
        rw [degLookup_canonDeg, hfind]
        rfl
      have hdeps := depsOf_eq hnd hs
      refine ⟨mem_stepIds.mpr ⟨s, hs, rfl⟩, ?_, ?_⟩
      · rw [hdeps]; exact hcond.1
      · rw [hdeps]
        have := hcond.2
        rw [hdeg] at this
        exact (Option.some.injEq _ _).mp this
    · rintro ⟨hx, hc, hcnt⟩
      rcases mem_stepIds.mp hx with ⟨s, hs, rfl⟩
      have hdeps := depsOf_eq hnd hs
      rw [hdeps] at hc hcnt
      refine List.mem_map.mpr ⟨(s.id, s.depends_on), ?_, rfl⟩
      refine List.mem_filter.mpr ⟨List.mem_map.mpr ⟨s, hs, rfl⟩, ?_⟩
      have hdeg : degLookup (canonDeg steps res) s.id = some (cnt s.depends_on res) := by
        rw [degLookup_canonDeg, find?_of_mem_nodup hnd hs]
        rfl
      simp [hc, hdeg, hcnt]

theorem append_singleton_eq {α : Type} {l r1 r2 : List α} {a x : α}
    (h : l ++ [x] = r1 ++ a :: r2) :
    (r1 = l ∧ a = x ∧ r2 = []) ∨ ∃ r2', l = r1 ++ a :: r2' ∧ r2 = r2' ++ [x] := by
  rcases r2.eq_nil_or_concat' with hr | ⟨r2', x', hr⟩
  · subst hr
    have := List.append_inj' h (by simp)
    exact Or.inl ⟨this.1.symm, by simpa using this.2.symm, rfl⟩
  · subst hr
    have h' : l ++ [x] = (r1 ++ a :: r2') ++ [x'] := by simpa using h
    have := List.append_inj' h' (by simp)
    exact Or.inr ⟨r2', this.1, by simp [(by simpa using this.2 : x = x')]⟩

theorem matchCount_eq_zero {g : List (String × List String)} {k : String}
    (h : k ∉ g.map Prod.fst) (c : String) : matchCount g c k = 0 := by
  have : g.filter (fun e => e.1 = k ∧ c ∈ e.2) = [] := by
    rw [List.filter_eq_nil_iff]
    intro e he hc
    simp only [decide_eq_true_eq] at hc
    exact h (hc.1 ▸ List.mem_map_of_mem Prod.fst he)
  unfold matchCount
  rw [this]
  rfl

theorem matchCount_graphOf {steps : List WorkflowStep} (hnd : (steps.map (·.id)).Nodup)
    {s : WorkflowStep} (hs : s ∈ steps) (c : String) :
    matchCount (graphOf steps) c s.id = if c ∈ s.depends_on then 1 else 0 := by
  induction steps with
  | nil => cases hs
  | cons t steps ih =>
      have hnd' := (List.nodup_cons.mp hnd).2
      rcases List.mem_cons.mp hs with h | h
      · subst h
        have hrest : s.id ∉ (graphOf steps).map Prod.fst := by
          rw [graphOf_keys]
          exact (List.nodup_cons.mp hnd).1
        rw [graphOf, List.map_cons, matchCount_cons, ← graphOf]
        rw [matchCount_eq_zero hrest c]
        by_cases hc : c ∈ s.depends_on <;> simp [hc]
      · have hne : ¬ t.id = s.id := by
          intro he
          have hmem : s.id ∈ steps.map (·.id) := List.mem_map_of_mem (·.id) h
          rw [← he] at hmem
          exact (List.nodup_cons.mp hnd).1 hmem
        rw [graphOf, List.map_cons, matchCount_cons, ← graphOf]
        rw [ih hnd' h]
        simp [hne]

theorem canonDeg_step {steps : List WorkflowStep} (hnd : (steps.map (·.id)).Nodup)
    (hdepnd : ∀ s ∈ steps, s.depends_on.Nodup) {c : String} {res : List String}
    (hcres : c ∉ res) :
    (canonDeg steps res).map (fun p => (p.1, p.2 - matchCount (graphOf steps) c p.1)) =
      canonDeg steps (res ++ [c]) := by
  rw [canonDeg, canonDeg, List.map_map]
  apply List.map_congr_left
  intro s hs
  simp only [Function.comp]
  rw [matchCount_graphOf hnd hs c, cnt_append_singleton s.depends_on res c (hdepnd s hs) hcres]

/-- Loop invariant for the Kahn `while queue:` loop.  `res` is the output so
far, `queue` the pending zero-in-degree ids. -/
structure KahnInv (steps : List WorkflowStep) (queue res : List String) : Prop where
  nodup : (res ++ queue).Nodup
  mem : ∀ x ∈ res ++ queue, x ∈ stepIds steps
  ready : ∀ x ∈ stepIds steps, ((x ∈ res ∨ x ∈ queue) ↔ ∀ d ∈ depsOf steps x, d ∈ res)
  sound : ∀ r1 a r2, res = r1 ++ a :: r2 → ∀ d ∈ depsOf steps a, d ∈ r1

/-- What holds of the list returned by the Kahn loop: no duplicates, only
step ids, an id is emitted exactly when all its dependencies are, and every
emitted id comes after all its dependencies. -/
def KahnOut (steps : List WorkflowStep) (out : List String) : Prop :=
  out.Nodup ∧ (∀ x ∈ out, x ∈ stepIds steps) ∧
    (∀ x ∈ stepIds steps, (x ∈ out ↔ ∀ d ∈ depsOf steps x, d ∈ out)) ∧
    (∀ r1 a r2, out = r1 ++ a :: r2 → ∀ d ∈ depsOf steps a, d ∈ r1)

theorem kahnInv_final {steps : List WorkflowStep} {res : List String}
    (inv : KahnInv steps [] res) : KahnOut steps res := by
  refine ⟨by simpa using inv.nodup, fun x hx => inv.mem x (by simpa using hx), ?_, inv.sound⟩
  intro x hx
  have := inv.ready x hx
  simpa using this

theorem KahnInv.stepPreserved {steps : List WorkflowStep}
    (hnd : (steps.map (·.id)).Nodup) (hdepnd : ∀ s ∈ steps, s.depends_on.Nodup)
    {c : String} {q res newly : List String}
    (inv : KahnInv steps (c :: q) res)
    (hnewnd : newly.Nodup)
    (hnew : ∀ x, x ∈ newly ↔
      x ∈ stepIds steps ∧ c ∈ depsOf steps x ∧ cnt (depsOf steps x) res = 1) :
    KahnInv steps (q ++ newly) (res ++ [c]) := by
  have hdisj : res.Disjoint (c :: q) := List.disjoint_of_nodup_append inv.nodup
  have hcids : c ∈ stepIds steps := inv.mem c (by simp)
  have hcres : c ∉ res := fun h => hdisj h (by simp)
  have hcq : c ∉ q := by
    have := (List.nodup_append.mp inv.nodup).2.1
    exact (List.nodup_cons.mp this).1
  have hdepsc : ∀ d ∈ depsOf steps c, d ∈ res := (inv.ready c hcids).mp (Or.inr (by simp))
  have hdepnodup : ∀ x ∈ stepIds steps, (depsOf steps x).Nodup := by
    intro x hx
    rcases mem_stepIds.mp hx with ⟨s, hs, rfl⟩
    rw [depsOf_eq hnd hs]
    exact hdepnd s hs
  have hnewfresh : ∀ x ∈ newly, x ∉ res ∧ x ∉ c :: q := by
    intro x hx
    rcases (hnew x).mp hx with ⟨hxids, hcdep, hcnt⟩
    have hnot : ¬ ∀ d ∈ depsOf steps x, d ∈ res := by
      intro hall
      rw [← cnt_eq_zero_iff] at hall
      omega
    have := (inv.ready x hxids)
    constructor
    · intro hmem
      exact hnot (this.mp (Or.inl hmem))
    · intro hmem
      exact hnot (this.mp (Or.inr hmem))
  have hshape : (res ++ [c]) ++ (q ++ newly) = (res ++ c :: q) ++ newly := by simp
  refine ⟨?_, ?_, ?_, ?_⟩
  · rw [hshape]
    refine List.Nodup.append inv.nodup hnewnd ?_
    intro a ha hanew
    rcases hnewfresh a hanew with ⟨h1, h2⟩
    rcases List.mem_append.mp ha with h | h
    · exact h1 h
    · exact h2 h
  · intro x hx
    rcases List.mem_append.mp hx with h | h
    · rcases List.mem_append.mp h with h' | h'
      · exact inv.mem x (List.mem_append.mpr (Or.inl h'))
      · have : x = c := by simpa using h'
        exact this ▸ hcids
    · rcases List.mem_append.mp h with h' | h'
      · exact inv.mem x (by simp [h'])
      · exact ((hnew x).mp h').1
  · intro x hx
    constructor
    · intro hor d hd
      rcases hor with h | h
      · rcases List.mem_append.mp h with h' | h'
        · exact List.mem_append.mpr
            (Or.inl ((inv.ready x hx).mp (Or.inl h') d hd))
        · have hxc : x = c := by simpa using h'
          subst hxc
          exact List.mem_append.mpr (Or.inl (hdepsc d hd))
      · rcases List.mem_append.mp h with h' | h'
        · exact List.mem_append.mpr
            (Or.inl ((inv.ready x hx).mp (Or.inr (List.mem_cons_of_mem c h')) d hd))
        · rcases (hnew x).mp h' with ⟨hxids, hcdep, hcnt⟩
          have h0 : cnt (depsOf steps x) (res ++ [c]) = 0 := by
            rw [cnt_append_singleton _ _ _ (hdepnodup x hx) hcres]
            simp [hcdep]
            omega
          exact (cnt_eq_zero_iff _ _).mp h0 d hd
    · intro hsub
      by_cases hall : ∀ d ∈ depsOf steps x, d ∈ res
      · rcases (inv.ready x hx).mpr hall with h | h
        · exact Or.inl (List.mem_append.mpr (Or.inl h))
        · rcases List.mem_cons.mp h with h' | h'
          · exact Or.inl (by simp [h'])
          · exact Or.inr (List.mem_append.mpr (Or.inl h'))
      · push_neg at hall
        rcases hall with ⟨d0, hd0, hd0res⟩
        have hd0c : d0 = c := by
          rcases List.mem_append.mp (hsub d0 hd0) with h | h
          · exact absurd h hd0res
          · simpa using h
        subst hd0c
        have h0 : cnt (depsOf steps x) (res ++ [d0]) = 0 :=
          (cnt_eq_zero_iff _ _).mpr hsub
        rw [cnt_append_singleton _ _ _ (hdepnodup x hx) hcres] at h0
        simp [hd0] at h0
        have hcnt1 : cnt (depsOf steps x) res = 1 := by omega
        exact Or.inr (List.mem_append.mpr (Or.inr ((hnew x).mpr ⟨hx, hd0, hcnt1⟩)))
  · intro r1 a r2 hsplit d hd
    rcases append_singleton_eq hsplit with ⟨hr1, ha, _⟩ | ⟨r2', hres, _⟩
    · subst hr1
      subst ha
      exact hdepsc d hd
    · exact inv.sound r1 a r2' hres d hd

theorem kahnLoop_final {steps : List WorkflowStep}
    (hnd : (steps.map (·.id)).Nodup) (hdepnd : ∀ s ∈ steps, s.depends_on.Nodup) :
    ∀ (fuel : Nat) (queue res : List String), KahnInv steps queue res →
      (stepIds steps).length ≤ fuel + res.length →
      KahnOut steps (kahnLoop (graphOf steps) fuel queue (canonDeg steps res) res) := by
  intro fuel
  induction fuel with
  | zero =>
      intro queue res inv hb
      cases queue with
      | nil => exact kahnInv_final inv
      | cons c q =>
          exfalso
          have hsub : (res ++ c :: q).Subperm (stepIds steps) :=
            List.subperm_of_subset inv.nodup (fun x hx => inv.mem x hx)
          have := hsub.length_le
          simp [List.length_append] at this
          omega
  | succ fuel ih =>
      intro queue res inv hb
      cases queue with
      | nil => exact kahnInv_final inv
      | cons c q =>
          have hkeys : ((graphOf steps).map Prod.fst).Nodup := by
            rw [graphOf_keys]; exact hnd
          have hvisit := kahnVisit_spec c (graphOf steps) (canonDeg steps res) q hkeys
          have hcres : c ∉ res := by
            have hdisj : res.Disjoint (c :: q) := List.disjoint_of_nodup_append inv.nodup
            exact fun h => hdisj h (by simp)
          have hcanon := @canonDeg_step steps hnd hdepnd c res hcres
          rcases newly_spec steps hnd c res with ⟨hnewnd, hnew⟩
          have hloop : kahnLoop (graphOf steps) (fuel + 1) (c :: q) (canonDeg steps res) res =
              kahnLoop (graphOf steps) fuel
                (q ++ ((graphOf steps).filter
                  (fun e => c ∈ e.2 ∧ degLookup (canonDeg steps res) e.1 = some 1)).map (·.1))
                (canonDeg steps (res ++ [c])) (res ++ [c]) := by
            rw [kahnLoop, hvisit]
            rw [← hcanon]
          rw [hloop]
          refine ih _ _ (KahnInv.stepPreserved hnd hdepnd inv hnewnd hnew) ?_
          simp only [List.length_append, List.length_cons]
          omega

/-- The initial state of the Kahn loop satisfies the invariant. -/
theorem kahnInv_init {steps : List WorkflowStep}
    (hnd : (steps.map (·.id)).Nodup) :
    KahnInv steps
      (((steps.map (fun s => (s.id, (s.depends_on.length : Int)))).filter
          (fun p => p.2 = 0)).map (·.1)) [] := by
  have hqchar : ∀ x, (x ∈ ((steps.map (fun s => (s.id, (s.depends_on.length : Int)))).filter
      (fun p => p.2 = 0)).map (·.1)) ↔ (x ∈ stepIds steps ∧ depsOf steps x = []) := by
    intro x
    constructor
    · intro hx
      rcases List.mem_map.mp hx with ⟨p, hp, rfl⟩
      have hmem := List.mem_filter.mp hp
      rcases List.mem_map.mp hmem.1 with ⟨s, hs, rfl⟩
      have hz := hmem.2
      simp only [decide_eq_true_eq] at hz
      have hlen : s.depends_on.length = 0 := by exact_mod_cast hz
      refine ⟨mem_stepIds.mpr ⟨s, hs, rfl⟩, ?_⟩
      rw [depsOf_eq hnd hs]
      exact List.length_eq_zero.mp hlen
    · rintro ⟨hx, hdep⟩
      rcases mem_stepIds.mp hx with ⟨s, hs, rfl⟩
      rw [depsOf_eq hnd hs] at hdep
      refine List.mem_map.mpr ⟨(s.id, (s.depends_on.length : Int)), ?_, rfl⟩
      refine List.mem_filter.mpr ⟨List.mem_map.mpr ⟨s, hs, rfl⟩, ?_⟩
      simp [hdep]
  refine ⟨?_, ?_, ?_, ?_⟩
  · simp only [List.nil_append]
    have hsub : (((steps.map (fun s => (s.id, (s.depends_on.length : Int)))).filter
        (fun p => p.2 = 0)).map (·.1)).Sublist
        ((steps.map (fun s => (s.id, (s.depends_on.length : Int)))).map (·.1)) :=
      (List.filter_sublist _).map _
    have hids : ((steps.map (fun s => (s.id, (s.depends_on.length : Int)))).map (·.1)) =
        stepIds steps := by
      simp [stepIds, List.map_map, Function.comp]
    rw [hids] at hsub
    exact hnd.sublist hsub
  · intro x hx
    simp only [List.nil_append] at hx
    exact ((hqchar x).mp hx).1
  · intro x hx
    simp only [List.not_mem_nil, false_or]
    constructor
    · intro hmem d hd
      have := ((hqchar x).mp hmem).2
      rw [this] at hd
      cases hd
    · intro hall
      refine (hqchar x).mpr ⟨hx, ?_⟩
      cases hdep : depsOf steps x with
      | nil => rfl
      | cons d ds =>
          have := hall d (by rw [hdep]; simp)
          cases this
  · intro r1 a r2 hsplit
    exact absurd hsplit (by simp)

theorem canonDeg_nil (steps : List WorkflowStep) :
    canonDeg steps [] = steps.map (fun s => (s.id, (s.depends_on.length : Int))) := by
  apply List.map_congr_left
  intro s _
  rw [cnt_nil]

/-- The list computed by the Kahn loop inside `_topological_sort` satisfies
`KahnOut`, and the function returns it iff its length matches the step
count. -/
theorem topologicalSort_spec {steps : List WorkflowStep}
    (hnd : (steps.map (·.id)).Nodup) (hdepnd : ∀ s ∈ steps, s.depends_on.Nodup) :
    ∃ out, topologicalSort steps =
        (if out.length = steps.length then Except.ok out
         else Except.error "Circular dependency detected in workflow steps") ∧
      KahnOut steps out := by
  have h0 := kahnLoop_final hnd hdepnd steps.length
    (((steps.map (fun s => (s.id, (s.depends_on.length : Int)))).filter
        (fun p => p.2 = 0)).map (·.1)) [] (kahnInv_init hnd) (by simp [stepIds])
  rw [canonDeg_nil] at h0
  exact ⟨_, rfl, h0⟩

/-- On a well-formed acyclic step set, `_topological_sort` succeeds with a
valid topological order. -/
theorem topologicalSort_dag {steps : List WorkflowStep}
    (hnd : (steps.map (·.id)).Nodup) (hdepnd : ∀ s ∈ steps, s.depends_on.Nodup)
    (hsub : ∀ s ∈ steps, ∀ d ∈ s.depends_on, d ∈ stepIds steps)
    (hacyc : ∀ a, ¬ Relation.TransGen (stepEdge steps) a a) :
    ∃ order, topologicalSort steps = Except.ok order ∧ order.Perm (stepIds steps) ∧
      ∀ r1 b r2, order = r1 ++ b :: r2 → ∀ d, stepEdge steps b d → d ∈ r1 := by
  classical
  obtain ⟨out, heq, hnodup, hmem, hready, hsound⟩ := topologicalSort_spec hnd hdepnd
  have hedge_mem : ∀ a b, stepEdge steps a b → b ∈ stepIds steps := by
    rintro a b ⟨s, hs, rfl, hb⟩
    exact hsub s hs b hb
  set m : String → Nat := fun a =>
    ((stepIds steps).toFinset.filter (fun b => Relation.TransGen (stepEdge steps) a b)).card
    with hm
  have hmono : ∀ a b, stepEdge steps a b → m b < m a := by
    intro a b he
    apply Finset.card_lt_card
    constructor
    · intro x hx
      have hx' := Finset.mem_filter.mp hx
      exact Finset.mem_filter.mpr ⟨hx'.1, Relation.TransGen.head he hx'.2⟩
    · intro hss
      have hb : b ∈ (stepIds steps).toFinset.filter
          (fun x => Relation.TransGen (stepEdge steps) a x) :=
        Finset.mem_filter.mpr ⟨List.mem_toFinset.mpr (hedge_mem a b he),
          Relation.TransGen.single he⟩
      have := Finset.mem_filter.mp (hss hb)
      exact hacyc b this.2
  have hall : ∀ x ∈ stepIds steps, x ∈ out := by
    have H : ∀ n, ∀ x, m x = n → x ∈ stepIds steps → x ∈ out := by
      intro n
      induction n using Nat.strong_induction_on with
      | _ n ih =>
          intro x hmx hx
          by_contra hnot
          have hnotall : ¬ ∀ d ∈ depsOf steps x, d ∈ out :=
            fun hcontra => hnot ((hready x hx).mpr hcontra)
          push_neg at hnotall
          obtain ⟨d, hd, hdnot⟩ := hnotall
          have hedge : stepEdge steps x d := (stepEdge_iff hnd).mpr ⟨hx, hd⟩
          have hdids : d ∈ stepIds steps := hedge_mem x d hedge
          have hlt := hmono x d hedge
          exact hdnot (ih (m d) (hmx ▸ hlt) d rfl hdids)
    intro x hx
    exact H (m x) x rfl hx
  have hperm : out.Perm (stepIds steps) :=
    (List.subperm_of_subset hnodup (fun x hx => hmem x hx)).antisymm
      (List.subperm_of_subset hnd (fun x hx => hall x hx))
  have hlen : out.length = steps.length := by
    have := hperm.length_eq
    simpa [stepIds] using this
  rw [heq, if_pos hlen]
  refine ⟨out, rfl, hperm, ?_⟩
  intro r1 b r2 hsplit d hedge
  exact hsound r1 b r2 hsplit d ((stepEdge_iff hnd).mp hedge).2

/-- On a well-formed step set whose dependency relation has a cycle,
`_topological_sort` raises the circular-dependency `ValueError`. -/
theorem topologicalSort_cycle {steps : List WorkflowStep}
    (hnd : (steps.map (·.id)).Nodup) (hdepnd : ∀ s ∈ steps, s.depends_on.Nodup)
    (hcyc : ∃ a, Relation.TransGen (stepEdge steps) a a) :
    topologicalSort steps = Except.error "Circular dependency detected in workflow steps" := by
  obtain ⟨out, heq, hnodup, hmem, hready, hsound⟩ := topologicalSort_spec hnd hdepnd
  rw [heq]
  rw [if_neg]
  intro hlen
  have hperm : out.Perm (stepIds steps) := by
    refine (List.subperm_of_subset hnodup (fun x hx => hmem x hx)).perm_of_length_le ?_
    simp [stepIds, hlen]
  have hall : ∀ x ∈ stepIds steps, x ∈ out := fun x hx => hperm.symm.subset hx
  have hlt : ∀ x y, stepEdge steps x y → out.indexOf y < out.indexOf x := by
    intro x y he
    have hx : x ∈ out := hall x ((stepEdge_iff hnd).mp he).1
    obtain ⟨r1, r2, hdecomp⟩ := List.append_of_mem hx
    have hy : y ∈ r1 := hsound r1 x r2 hdecomp y ((stepEdge_iff hnd).mp he).2
    have hxnotr1 : x ∉ r1 := by
      have hnd2 : (r1 ++ x :: r2).Nodup := hdecomp ▸ hnodup
      have hdisj := List.disjoint_of_nodup_append hnd2
      exact fun hmem1 => hdisj hmem1 (by simp)
    have hidx_x : out.indexOf x = r1.length := by
      rw [hdecomp, List.indexOf_append_of_not_mem hxnotr1, List.indexOf_cons_self]
      omega
    have hidx_y : out.indexOf y = r1.indexOf y := by
      rw [hdecomp, List.indexOf_append_of_mem hy]
    rw [hidx_x, hidx_y]
    exact List.indexOf_lt_length.mpr hy
  obtain ⟨a, ha⟩ := hcyc
  have hchain : ∀ b, Relation.TransGen (stepEdge steps) a b →
      out.indexOf b < out.indexOf a := by
    intro b h
    induction h with
    | single h' => exact hlt _ _ h'
    | tail _ hbc ih => exact lt_trans (hlt _ _ hbc) ih
  exact absurd (hchain a ha) (lt_irrefl _)

/-! ## Agents, registry, and provider-call oracles -/

/-- Minimal embedding of `AgentContext` (only the fields the claims touch). -/
structure AgentContext where
  session_id : String
  workspace_id : String := ""
  user_id : String := ""

/-- Embedding of `AgentHandoff` (the fields read by `chat`). -/
structure AgentHandoff where
  to_agent : AgentType
  reason : String := ""

/-- Embedding of `AgentResult` (`app/agents/base.py`); tool calls, token and
timing metadata are not modelled. -/
structure AgentResult where
  result_id : String
  status : AgentStatus
  output : Dict
  error : Option String := none
  handoff : Option AgentHandoff := none

/-- Behavioural model of a registered agent: `canHandle`, `shouldHandoff`
and the single-shot `execute` used by the chat/task paths.  Confidence is
modelled as a rational; only order comparisons are performed on it in the
source.  `execute` returning `Except.error` models a raised exception. -/
structure Agent where
  agent_type : AgentType
  name : String := ""
  canHandle : String → AgentContext → Bool × Rat
  shouldHandoff : String → AgentContext → Option AgentHandoff
  execute : String → AgentContext → Except String AgentResult

/-- The registry's `_agents` dict: agents keyed by type in registration
order. -/
abbrev Registry := List (AgentType × Agent)

/-- Embedding of `AgentRegistry.get`. -/
def registryGet (registry : Registry) (t : AgentType) : Option Agent :=
  (registry.find? (fun p => p.1 = t)).map (·.2)

/-- One iteration of the `route_request` loop (`registry.py:75-83`): skip
excluded agents, ask `can_handle`, and replace the running best only on a
strictly greater confidence. -/
def routeStep (request : String) (context : AgentContext) (exclude : List AgentType)
    (best : Option Agent × Rat) (p : AgentType × Agent) : Option Agent × Rat :=
  if p.1 ∈ exclude then best
  else
    let ch := p.2.canHandle request context
    if ch.1 ∧ ch.2 > best.2 then (some p.2, ch.2) else best

/-- Embedding of `AgentRegistry.route_request` (`registry.py:54-85`): fold
over the agents in registration order keeping the strictly best
`can_handle` confidence. -/
def routeRequest (registry : Registry) (request : String) (context : AgentContext)
    (exclude : List AgentType) : Option Agent × Rat :=
  registry.foldl (routeStep request context exclude) (none, 0)

/-- Outcome of one awaited provider call inside the workflow retry loop:
a timeout of `asyncio.wait_for`, a raised exception, or a returned
`AgentResult`.  A run of the engine is parametrised by a stream of such
outcomes (one per provider call, in call order), abstracting the
asynchronous provider. -/
inductive Outcome where
  | timeout
  | raises (msg : String)
  | success (res : AgentResult)

/-- Python `x or default` on an optional string (`None` and `""` are
falsy). -/
def pyOr (o : Option String) (d : String) : String :=
  match o with
  | some s => if s = "" then d else s
  | none => d

/-- Python `str()` of an optional string as interpolated by f-strings. -/
def optStr (o : Option String) : String :=
  match o with
  | some s => s
  | none => "None"

/-- Result of the `while retries >= 0` loop of `_execute_workflow_step`,
plus the number of provider calls made. -/
inductive LoopResult where
  | done (output : Dict)
  | exhausted (last : Option String)
  | raised (msg : String)

/-- The retry loop of `_execute_workflow_step` (`orchestrator.py:371-393`):
`i` is the index of the next provider call in the outcome stream, `k` the
number of remaining attempts (`retries + 1` initially), `last` the last
recorded error.  Returns the loop result and the number of calls made. -/
def retryLoop (attempts : Nat → String → Outcome) (prompt : String) :
    Nat → Nat → Option String → LoopResult × Nat
  | _, 0, last => (.exhausted last, 0)
  | i, k + 1, last =>
      match attempts i prompt with
      | .timeout =>
          let r := retryLoop attempts prompt (i + 1) k (some "Step timed out")
          (r.1, r.2 + 1)
      | .raises msg => (.raised msg, 1)
      | .success res =>
          if res.status = AgentStatus.completed then (.done res.output, 1)
          else
            let r := retryLoop attempts prompt (i + 1) k
              (some (pyOr res.error "Agent execution failed"))
            (r.1, r.2 + 1)

/-! ## Template reference resolution (`_resolve_references`) -/

/-- Python `str.strip()`: drop whitespace from both ends. -/
def pyStrip (s : String) : String :=
  String.mk (((s.toList.dropWhile Char.isWhitespace).reverse.dropWhile
    Char.isWhitespace).reverse)

/-- Python `str.startswith(pre)`. -/
def pyStartsWith (s pre : String) : Bool :=
  pre.toList.isPrefixOf s.toList

/-- Python slicing `s[n:]`. -/
def pyDrop (s : String) (n : Nat) : String :=
  String.mk (s.toList.drop n)

/-- Accumulator loop of Python `str.split(sep)`. -/
def pySplitAux (sep : Char) : List Char → List Char → List (List Char)
  | [], acc => [acc.reverse]
  | c :: rest, acc =>
      if c = sep then acc.reverse :: pySplitAux sep rest []
      else pySplitAux sep rest (c :: acc)

/-- Python `str.split(sep)` for a single-character separator. -/
def pySplit (s : String) (sep : Char) : List String :=
  (pySplitAux sep s.toList []).map String.mk

/-- Scanner for the regex `\{\{([^}]+)\}\}` used by `re.sub` in
`_resolve_references`: at each position, a match requires `{{`, a non-empty
run of non-`}` characters, then `}}`; on a match the replacer's output is
emitted and scanning resumes after the match, otherwise one character is
emitted and scanning continues at the next position. -/
def scanTemplates (repl : String → String) : List Char → List Char
  | [] => []
  | c :: rest =>
      if c = '{' ∧ rest.head? = some '{' then
        let sp := rest.tail.span (fun ch => ch ≠ '}')
        if sp.1 ≠ [] ∧ sp.2.head? = some '}' ∧ sp.2.tail.head? = some '}' then
          (repl (String.mk sp.1)).toList ++ scanTemplates repl sp.2.tail.tail
        else c :: scanTemplates repl rest
      else c :: scanTemplates repl rest
termination_by l => l.length
decreasing_by
  · have h1 : (rest.tail.span (fun ch => ch ≠ '}')).2.length ≤ rest.tail.length := by
      rw [List.span_eq_take_drop]
      exact (List.dropWhile_sublist _).length_le
    have h2 : rest.tail.length ≤ rest.length := by
      cases rest <;> simp
    have h3 : ∀ l : List Char, l.tail.length ≤ l.length := by
      intro l
      cases l <;> simp
    have h4 := h3 (rest.tail.span (fun ch => ch ≠ '}')).2
    have h5 := h3 (rest.tail.span (fun ch => ch ≠ '}')).2.tail
    simp only [List.length_cons]
    omega
  · simp
  · simp

/-- Navigation of a step output along a dotted path
(`current = current.get(part)` with a `break` on non-dicts). -/
def navigateOutput : Value → List String → Value
  | current, [] => current
  | .vdict entries, p :: ps => navigateOutput ((dictFind entries p).getD .vnone) ps
  | current, _ :: _ => current

/-- Python truthiness of an optional output dict (`result.output`). -/
def outputTruthy (o : Option Dict) : Bool :=
  match o with
  | some d => !d.isEmpty
  | none => false

/-- The `prev.` branch of the replacer: walk recorded step results in
reverse insertion order for the last completed one with truthy output. -/
def prevLookup (rs : List (String × WorkflowStepResult)) (key : String) : String :=
  match rs with
  | [] => ""
  | (_, r) :: rest =>
      if r.status = StepStatus.completed ∧ outputTruthy r.output then
        ((dictFind (r.output.getD []) key).getD (.vstr "")).pyStr
      else prevLookup rest key

/-- The `replacer` closure of `_resolve_references`
(`orchestrator.py:501-533`), applied to the text between `{{` and `}}`. -/
def templateRef (execution : Execution) (workflow_input : Dict) (ref0 : String) : String :=
  let ref := pyStrip ref0
  if pyStartsWith ref "input." then
    ((dictFind workflow_input (pyDrop ref 6)).getD (.vstr "")).pyStr
  else if pyStartsWith ref "steps." then
    let parts := pySplit ref '.'
    let step_id := (parts.get? 1).getD ""
    match execution.find step_id with
    | some result =>
        match result.output with
        | some out =>
            if !out.isEmpty then
              let nav := navigateOutput (.vdict out) (parts.drop 3)
              if nav.truthy then nav.pyStr else ""
            else ""
        | none => ""
    | none => ""
  else if pyStartsWith ref "prev." then
    prevLookup execution.step_results.reverse (pyDrop ref 5)
  else "\x7b\x7b" ++ ref0 ++ "\x7d\x7d"

/-- Recursive descent of `resolve_value` over nested values. -/
def resolveValue (repl : String → String) : Value → Value
  | .vstr s => .vstr (String.mk (scanTemplates repl s.toList))
  | .vint n => .vint n
  | .vbool b => .vbool b
  | .vnone => .vnone
  | .vdict es => .vdict (es.attach.map (fun q => match q with
      | ⟨(k, v), _⟩ => (k, resolveValue repl v)))
  | .vlist items => .vlist (items.attach.map (fun q => match q with
      | ⟨v, _⟩ => resolveValue repl v))
termination_by v => sizeOf v
decreasing_by
  all_goals
    rename_i hmem
    have h1 := List.sizeOf_lt_of_mem hmem
    simp at h1 ⊢
    omega

/-- Embedding of `AgentOrchestrator._resolve_references`
(`orchestrator.py:480-545`) applied to a step input dict. -/
def resolveReferences (input : Dict) (execution : Execution) (workflow_input : Dict) : Dict :=
  input.map (fun p => (p.1, resolveValue (templateRef execution workflow_input) p.2))

/-- Resolution of a single string field of a step input. -/
def resolveString (execution : Execution) (workflow_input : Dict) (s : String) : String :=
  String.mk (scanTemplates (templateRef execution workflow_input) s.toList)

/-! ## Workflow step execution and the orchestrate loop -/

/-- The textual instruction built by `_execute_workflow_step`
(`orchestrator.py:357-364`) from the step's action and its reference-resolved
input. -/
def stepPrompt (step : WorkflowStep) (execution : Execution) (workflow_input : Dict) : String :=
  "Execute action '" ++ step.action ++ "' with parameters: " ++
    (Value.vdict (resolveReferences step.input execution workflow_input)).pyStr

/-- Embedding of `AgentOrchestrator._execute_workflow_step`
(`orchestrator.py:336-413`): look up the step's agent, resolve input
references, build the prompt, then run the retry loop against the outcome
stream starting at call index `ctr`.  Returns the recorded step result and
the next call index. -/
def executeWorkflowStep (registry : Registry) (attempts : Nat → String → Outcome)
    (ctr : Nat) (step : WorkflowStep) (execution : Execution) (workflow_input : Dict) :
    WorkflowStepResult × Nat :=
  match registryGet registry step.agent with
  | none =>
      (⟨step.id, .failed, none, some ("Unknown agent: " ++ step.agent.pyName), step.agent⟩, ctr)
  | some _ =>
      let run := retryLoop attempts (stepPrompt step execution workflow_input) ctr
        (step.retries + 1).toNat none
      let result : WorkflowStepResult :=
        match run.1 with
        | .done output => ⟨step.id, .completed, some output, none, step.agent⟩
        | .exhausted last => ⟨step.id, .failed, none, last, step.agent⟩
        | .raised msg => ⟨step.id, .failed, none, some msg, step.agent⟩
      (result, ctr + run.2)

/-- Embedding of `AgentOrchestrator._dependencies_satisfied`
(`orchestrator.py:440-451`). -/
def dependenciesSatisfied (step : WorkflowStep) (execution : Execution) : Bool :=
  step.depends_on.all (fun dep =>
    match execution.find dep with
    | none => false
    | some r => r.status = StepStatus.completed ∨ r.status = StepStatus.skipped)

/-- Embedding of `AgentOrchestrator._evaluate_condition`
(`orchestrator.py:453-478`). -/
def evaluateCondition (condition : WorkflowCondition) (execution : Execution)
    (input : Dict) : Bool :=
  if condition.type = CondKind.always then true
  else
    match condition.expression with
    | some e =>
        if e ≠ "" then
          if pyStartsWith e "steps." then
            let parts := pySplit e '.'
            let step_id := (parts.get? 1).getD ""
            match execution.find step_id with
            | some result =>
                if condition.type = CondKind.condIf then
                  result.status = StepStatus.completed
                else
                  result.status ≠ StepStatus.completed
            | none => true
          else true
        else true
    | none => true

/-- The skipped result recorded when a step's condition evaluates false. -/
def skippedResult (step_id : String) (agent : AgentType) : WorkflowStepResult :=
  ⟨step_id, .skipped, none, none, agent⟩

/-- The fallback step synthesized by `orchestrate` for a failed step with
`on_error == "fallback"` (`orchestrator.py:294-300`); every unset field
takes its pydantic default. -/
def fallbackStepOf (step : WorkflowStep) (step_id : String) (fa : AgentType) : WorkflowStep :=
  { id := step_id ++ "_fallback"
    name := step.name ++ " (fallback)"
    agent := fa
    action := step.action
    input := step.input }

/-- The `for step_id in step_order:` loop of `orchestrate`
(`orchestrator.py:260-307`).  State: the execution record, the next
provider-call index, and the trace of step ids passed to
`_execute_workflow_step` (in call order).  The fourth component of the
return value carries the message of a raised `RuntimeError`, aborting the
loop, or `none` on normal completion. -/
def orchLoop (registry : Registry) (attempts : Nat → String → Outcome)
    (steps : List WorkflowStep) (error_handling : ErrorHandling) (winput : Dict) :
    List String → Execution → Nat → List String →
      Execution × Nat × List String × Option String
  | [], ex, ctr, tr => (ex, ctr, tr, none)
  | step_id :: rest, ex, ctr, tr =>
      match steps.find? (fun s => s.id = step_id) with
      | none => (ex, ctr, tr, some "StopIteration")
      | some step =>
          let ex1 : Execution := { ex with current_step := some step_id }
          if ¬ dependenciesSatisfied step ex1 then
            if error_handling = ErrorHandling.fail_fast then
              (ex1, ctr, tr, some ("Dependencies not satisfied for step: " ++ step_id))
            else orchLoop registry attempts steps error_handling winput rest ex1 ctr tr
          else if (match step.condition with
                   | some c => !evaluateCondition c ex1 winput
                   | none => false) then
            let ex2 : Execution := { ex1 with
              step_results := setResult ex1.step_results step_id (skippedResult step_id step.agent) }
            orchLoop registry attempts steps error_handling winput rest ex2 ctr tr
          else
            let pr := executeWorkflowStep registry attempts ctr step ex1 winput
            let tr1 := tr ++ [step.id]
            let ex2 : Execution := { ex1 with
              step_results := setResult ex1.step_results step_id pr.1 }
            if pr.1.status = StepStatus.failed then
              if step.on_error = OnError.fail then
                (ex2, pr.2, tr1,
                 some ("Step failed: " ++ step_id ++ " - " ++ optStr pr.1.error))
              else
                match step.on_error, step.fallback_agent with
                | OnError.fallback, some fa =>
                    let fstep := fallbackStepOf step step_id fa
                    let fr := executeWorkflowStep registry attempts pr.2 fstep ex2 winput
                    let ex3 : Execution := { ex2 with
                      step_results := setResult ex2.step_results step_id fr.1 }
                    orchLoop registry attempts steps error_handling winput rest ex3 fr.2
                      (tr1 ++ [fstep.id])
                | _, _ =>
                    orchLoop registry attempts steps error_handling winput rest ex2 pr.2 tr1
            else orchLoop registry attempts steps error_handling winput rest ex2 pr.2 tr1

/-- Workflow-level run status (the `OrchestrateResponse.status` literal). -/
inductive RunStatus where
  | pending
  | running
  | completed
  | failed
  deriving DecidableEq, Repr

/-- Embedding of `OrchestrateResponse` (`app/agents/types.py`). -/
structure OrchestrateResponse where
  execution_id : String
  status : RunStatus
  results : List (String × WorkflowStepResult)
  error : Option String := none

/-- The process-wide `_active_workflows` map, modelled extensionally. -/
abbrev ActiveMap := String → Option Execution

/-- Embedding of `AgentOrchestrator.orchestrate` (`orchestrator.py:226-334`):
insert the fresh execution record, topologically sort, run the step loop,
convert any propagated exception into a failed response, and remove the
record in the `finally` block.  Returns the response, the updated active
map, and the trace of executed step ids. -/
def orchestrate (registry : Registry) (attempts : Nat → String → Outcome)
    (execution_id : String) (workflow : WorkflowDefinition) (winput : Dict)
    (active : ActiveMap) : OrchestrateResponse × ActiveMap × List String :=
  let execution0 : Execution := {}
  let active1 : ActiveMap := fun k => if k = execution_id then some execution0 else active k
  let cleaned : ActiveMap := fun k => if k = execution_id then none else active1 k
  match topologicalSort workflow.steps with
  | .error e => (⟨execution_id, .failed, [], some e⟩, cleaned, [])
  | .ok step_order =>
      let r := orchLoop registry attempts workflow.steps workflow.error_handling winput
        step_order execution0 0 []
      match r.2.2.2 with
      | some e => (⟨execution_id, .failed, r.1.step_results, some e⟩, cleaned, r.2.2.1)
      | none => (⟨execution_id, .completed, r.1.step_results, none⟩, cleaned, r.2.2.1)

/-- Embedding of `AgentOrchestrator.get_workflow_status`
(`orchestrator.py:579-581`). -/
def getWorkflowStatus (active : ActiveMap) (execution_id : String) : Option Execution :=
  active execution_id

/-! ## Chat and task execution paths -/

/-- Embedding of `ChatRequest` (the fields `chat` reads). -/
structure ChatRequest where
  session_id : Option String := none
  message : String
  agent_type : Option AgentType := none

/-- Embedding of `ChatResponse` (the fields the claims touch; tool calls,
suggested actions and the metadata dict are not modelled). -/
structure ChatResponse where
  session_id : String
  message_id : String
  content : String
  agent_type : AgentType

/-- Provider resolution phase of `chat` (`orchestrator.py:74-92`): explicit
agent-type override, else routing, else the planner fallback.  The raised
`ValueError`/`RuntimeError` become `Except.error`. -/
def chatSelect (registry : Registry) (request : ChatRequest) (context : AgentContext) :
    Except String Agent :=
  match request.agent_type with
  | some t =>
      match registryGet registry t with
      | none => .error ("Unknown agent type: " ++ t.pyName)
      | some a => .ok a
  | none =>
      let r := routeRequest registry request.message context []
      match r.1 with
      | some a => .ok a
      | none =>
          match registryGet registry AgentType.planner with
          | none => .error "No agents available to handle request"
          | some a => .ok a

/-- Pre-execution handoff substitution of `chat` (`orchestrator.py:95-100`):
performed at most once, only when the target agent is registered. -/
def chatHandoff (registry : Registry) (agent : Agent) (request : ChatRequest)
    (context : AgentContext) : Agent :=
  match agent.shouldHandoff request.message context with
  | some h =>
      match registryGet registry h.to_agent with
      | some target => target
      | none => agent
  | none => agent

/-- Embedding of `AgentOrchestrator.chat` (`orchestrator.py:59-138`).
`fresh_message_id` stands for the `uuid.uuid4()` drawn in the error branch.
An `Except.error` return models an exception raised to the caller. -/
def chat (registry : Registry) (request : ChatRequest) (context : AgentContext)
    (fresh_message_id : String) : Except String ChatResponse :=
  match chatSelect registry request context with
  | .error e => .error e
  | .ok agent0 =>
      let agent := chatHandoff registry agent0 request context
      match agent.execute request.message context with
      | .ok result =>
          .ok { session_id := context.session_id
                message_id := result.result_id
                content :=
                  match dictFind result.output "response" with
                  | some v => v.pyStr
                  | none => (Value.vdict result.output).pyStr
                agent_type := agent.agent_type }
      | .error e =>
          .ok { session_id := context.session_id
                message_id := fresh_message_id
                content := "I encountered an error processing your request: " ++ e
                agent_type := agent.agent_type }

/-- Task-execution statuses (the `ExecuteTaskResponse.status` literal). -/
inductive TaskStatus where
  | pending
  | running
  | completed
  | failed
  deriving DecidableEq, Repr

/-- Embedding of `ExecuteTaskRequest` (`app/agents/types.py`). -/
structure ExecuteTaskRequest where
  agent_type : AgentType
  task_type : String
  input : Dict
  async_execution : Bool := false

/-- Embedding of `ExecuteTaskResponse` (`app/agents/types.py`). -/
structure ExecuteTaskResponse where
  task_id : String
  status : TaskStatus
  result : Option Dict := none
  error : Option String := none

/-- Embedding of `AgentOrchestrator.execute_task`
(`orchestrator.py:144-199`).  `fresh_task_id` stands for the
`uuid.uuid4()` drawn during the call; the detached background task of the
async path has no caller-visible effect beyond the returned response. -/
def executeTask (registry : Registry) (request : ExecuteTaskRequest)
    (context : AgentContext) (fresh_task_id : String) : ExecuteTaskResponse :=
  match registryGet registry request.agent_type with
  | none =>
      { task_id := fresh_task_id
        status := .failed
        error := some ("Unknown agent type: " ++ request.agent_type.pyName) }
  | some agent =>
      if request.async_execution then
        { task_id := fresh_task_id, status := .running }
      else
        match agent.execute
            ("Execute " ++ request.task_type ++ ": " ++ (Value.vdict request.input).pyStr)
            context with
        | .ok result =>
            { task_id := fresh_task_id
              status := if result.status = AgentStatus.completed then .completed else .failed
              result := some result.output
              error := result.error }
        | .error e =>
            { task_id := fresh_task_id, status := .failed, error := some e }

/-! ## Demo values used by concrete witnesses -/

/-- A context used in concrete instantiations. -/
def demoContext : AgentContext := ⟨"sess-1", "ws-1", "user-1"⟩

/-- An agent whose `execute` always raises. -/
def demoFailingAgent : Agent :=
  { agent_type := .planner
    canHandle := fun _ _ => (true, 1)
    shouldHandoff := fun _ _ => none
    execute := fun _ _ => .error "boom" }

/-! ## C9: unknown agent type in execute_task -/

/-- C9: for every `ExecuteTaskRequest` naming an agent type with no
registered provider, `execute_task` returns (never raises) a response with
status `failed`, an error naming the unknown type, the freshly generated
task id, and no result. -/
theorem executeTask_unknown_agent (registry : Registry) (request : ExecuteTaskRequest)
    (context : AgentContext) (fresh_task_id : String)
    (h : registryGet registry request.agent_type = none) :
    executeTask registry request context fresh_task_id =
      { task_id := fresh_task_id
        status := .failed
        result := none
        error := some ("Unknown agent type: " ++ request.agent_type.pyName) } := by
  unfold executeTask
  rw [h]

/-- Witness for C9 at a concrete request against an empty registry. -/
theorem executeTask_unknown_agent_witness :
    executeTask [] ⟨AgentType.grant, "summarize", [], false⟩ demoContext "task-1" =
      { task_id := "task-1"
        status := .failed
        result := none
        error := some ("Unknown agent type: " ++ AgentType.pyName AgentType.grant) } :=
  executeTask_unknown_agent [] ⟨AgentType.grant, "summarize", [], false⟩ demoContext "task-1" rfl

/-! ## C5: active-execution map cleanup -/

/-- C5: the execution record inserted by `orchestrate` is removed from the
active map on every exit path, so `get_workflow_status` afterwards returns
absent; entries under other keys are untouched. -/
theorem orchestrate_cleanup (registry : Registry) (attempts : Nat → String → Outcome)
    (execution_id : String) (workflow : WorkflowDefinition) (winput : Dict)
    (active : ActiveMap) :
    getWorkflowStatus
        (orchestrate registry attempts execution_id workflow winput active).2.1
        execution_id = none ∧
    ∀ k, k ≠ execution_id →
      getWorkflowStatus
          (orchestrate registry attempts execution_id workflow winput active).2.1 k =
        getWorkflowStatus active k := by
  unfold orchestrate getWorkflowStatus
  cases htopo : topologicalSort workflow.steps with
  | error e =>
      refine ⟨by simp, ?_⟩
      intro k hk
      simp [hk]
  | ok order =>
      cases herr : (orchLoop registry attempts workflow.steps workflow.error_handling winput
          order {} 0 []).2.2.2 with
      | none =>
          refine ⟨by simp [herr], ?_⟩
          intro k hk
          simp [herr, hk]
      | some e =>
          refine ⟨by simp [herr], ?_⟩
          intro k hk
          simp [herr, hk]

/-- Witness for C5 at a concrete workflow run. -/
theorem orchestrate_cleanup_witness :
    getWorkflowStatus
        (orchestrate [] (fun _ _ => .timeout) "exec-1" ⟨"w", "w", "", [], .fail_fast, none⟩ []
          (fun _ => none)).2.1 "exec-1" = none ∧
    getWorkflowStatus
        (orchestrate [] (fun _ _ => .timeout) "exec-1" ⟨"w", "w", "", [], .fail_fast, none⟩ []
          (fun _ => none)).2.1 "other" =
      getWorkflowStatus (fun _ => none) "other" :=
  ⟨(orchestrate_cleanup [] (fun _ _ => .timeout) "exec-1" ⟨"w", "w", "", [], .fail_fast, none⟩ []
      (fun _ => none)).1,
   (orchestrate_cleanup [] (fun _ _ => .timeout) "exec-1" ⟨"w", "w", "", [], .fail_fast, none⟩ []
      (fun _ => none)).2 "other" (by decide)⟩

/-! ## C6: chat exception handling -/

/-- Counterexample to C6 as stated: with an explicitly requested but
unregistered agent type, `chat` raises `ValueError` to its caller
(modelled by `Except.error`) instead of returning a normal response. -/
theorem chat_raises_on_unknown_type :
    chat [] { message := "hi", agent_type := some AgentType.task } demoContext "mid-1" =
      Except.error ("Unknown agent type: " ++ AgentType.pyName AgentType.task) := rfl

/-- C6 amended: once provider resolution has succeeded, `chat` never raises;
any exception from the selected (possibly handoff-substituted) provider's
execution is converted into a normal `ChatResponse` whose content explains
the error, with that provider's type preserved in the response. -/
theorem chat_execution_errors_handled (registry : Registry) (request : ChatRequest)
    (context : AgentContext) (mid : String) (agent0 : Agent)
    (hsel : chatSelect registry request context = .ok agent0) :
    (∃ resp, chat registry request context mid = .ok resp ∧
      resp.agent_type = (chatHandoff registry agent0 request context).agent_type) ∧
    (∀ e, (chatHandoff registry agent0 request context).execute request.message context =
        .error e →
      chat registry request context mid = .ok
        { session_id := context.session_id
          message_id := mid
          content := "I encountered an error processing your request: " ++ e
          agent_type := (chatHandoff registry agent0 request context).agent_type }) := by
  constructor
  · unfold chat
    rw [hsel]
    cases hex : (chatHandoff registry agent0 request context).execute request.message context with
    | ok result =>
        refine ⟨{ session_id := context.session_id
                  message_id := result.result_id
                  content :=
                    match dictFind result.output "response" with
                    | some v => v.pyStr
                    | none => (Value.vdict result.output).pyStr
                  agent_type := (chatHandoff registry agent0 request context).agent_type },
               ?_, rfl⟩
        simp only [hex]
    | error e =>
        refine ⟨{ session_id := context.session_id
                  message_id := mid
                  content := "I encountered an error processing your request: " ++ e
                  agent_type := (chatHandoff registry agent0 request context).agent_type },
               ?_, rfl⟩
        simp only [hex]
  · intro e he
    unfold chat
    rw [hsel]
    simp only [he]

/-- Witness for the amended C6: a registry holding one raising planner
agent; the routed request's execution error is converted into a response. -/
theorem chat_execution_errors_handled_witness :
    chatSelect [(.planner, demoFailingAgent)] { message := "plan my week" } demoContext =
      .ok demoFailingAgent ∧
    chat [(.planner, demoFailingAgent)] { message := "plan my week" } demoContext "mid-2" =
      .ok { session_id := demoContext.session_id
            message_id := "mid-2"
            content := "I encountered an error processing your request: " ++ "boom"
            agent_type :=
              (chatHandoff [(.planner, demoFailingAgent)] demoFailingAgent
                { message := "plan my week" } demoContext).agent_type } :=
  ⟨rfl,
   (chat_execution_errors_handled [(.planner, demoFailingAgent)] { message := "plan my week" }
      demoContext "mid-2" demoFailingAgent rfl).2 "boom" rfl⟩

/-! ## C7: routing -/

theorem foldl_max_le_init {l : List Rat} {a : Rat} (h : ∀ x ∈ l, x ≤ a) :
    l.foldl max a = a := by
  induction l generalizing a with
  | nil => rfl
  | cons x l ih =>
      rw [List.foldl_cons, max_eq_left (h x (by simp))]
      exact ih (fun y hy => h y (by simp [hy]))

theorem le_foldl_max (l : List Rat) (a : Rat) : a ≤ l.foldl max a := by
  induction l generalizing a with
  | nil => exact le_refl a
  | cons x l ih => exact le_trans (le_max_left a x) (ih (max a x))

theorem foldl_max_mem_le (l : List Rat) (a : Rat) : ∀ x ∈ l, x ≤ l.foldl max a := by
  induction l generalizing a with
  | nil => intro x hx; cases hx
  | cons y l ih =>
      intro x hx
      rcases List.mem_cons.mp hx with rfl | hx'
      · exact le_trans (le_max_right a x) (le_foldl_max l (max a x))
      · exact ih (max a y) x hx'

/-- Characterization of the `route_request` fold from an arbitrary running
best: it returns the first candidate attaining the maximum among candidate
confidences exceeding the accumulator, or the accumulator unchanged. -/
theorem routeRequest_go (request : String) (context : AgentContext)
    (exclude : List AgentType) :
    ∀ (l : List (AgentType × Agent)) (b : Option Agent) (c : Rat),
      (l.foldl (routeStep request context exclude) (b, c)) =
      (let cands := l.filter
          (fun p => decide (p.1 ∉ exclude) && (p.2.canHandle request context).1)
       let M := (cands.map (fun p => (p.2.canHandle request context).2)).foldl max c
       if cands.any (fun p => (p.2.canHandle request context).2 > c) then
         ((cands.find? (fun p => (p.2.canHandle request context).2 = M)).map (·.2), M)
       else (b, c)) := by
  intro l
  induction l with
  | nil => intro b c; simp
  | cons p l ih =>
      intro b c
      by_cases hexc : p.1 ∈ exclude
      · have hstep : routeStep request context exclude (b, c) p = (b, c) := by
          rw [routeStep, if_pos hexc]
        rw [List.foldl_cons, hstep, ih b c]
        have hfilter : (p :: l).filter
            (fun q => decide (q.1 ∉ exclude) && (q.2.canHandle request context).1) =
            l.filter (fun q => decide (q.1 ∉ exclude) && (q.2.canHandle request context).1) := by
          simp [List.filter_cons, hexc]
        rw [hfilter]
      · by_cases hch : (p.2.canHandle request context).1 = true
        · have hfilter : (p :: l).filter
              (fun q => decide (q.1 ∉ exclude) && (q.2.canHandle request context).1) =
              p :: l.filter (fun q => decide (q.1 ∉ exclude) && (q.2.canHandle request context).1) := by
            simp [List.filter_cons, hexc, hch]
          by_cases hgt : (p.2.canHandle request context).2 > c
          · have hstep : routeStep request context exclude (b, c) p =
                (some p.2, (p.2.canHandle request context).2) := by
              rw [routeStep, if_neg hexc]
              simp only [if_pos (And.intro hch hgt)]
            rw [List.foldl_cons, hstep, ih (some p.2) ((p.2.canHandle request context).2), hfilter]
            set cf := fun q : AgentType × Agent => (q.2.canHandle request context).2 with hcf
            set cands := l.filter
              (fun q => decide (q.1 ∉ exclude) && (q.2.canHandle request context).1) with hcands
            have hmax : (List.map cf (p :: cands)).foldl max c =
                (List.map cf cands).foldl max (cf p) := by
              rw [List.map_cons, List.foldl_cons, max_eq_right (le_of_lt hgt)]
            by_cases hany : cands.any (fun q => cf q > cf p) = true
            · have hany2 : (p :: cands).any (fun q => cf q > c) = true := by
                rcases List.any_eq_true.mp hany with ⟨q, hq, hgtq⟩
                refine List.any_eq_true.mpr ⟨q, by simp [hq], ?_⟩
                simp only [decide_eq_true_eq] at hgtq ⊢
                exact lt_trans hgt hgtq
              rw [if_pos hany, if_pos hany2, hmax]
              rcases List.any_eq_true.mp hany with ⟨q, hq, hgtq⟩
              simp only [decide_eq_true_eq] at hgtq
              have hne : ¬ (cf p = (List.map cf cands).foldl max (cf p)) := by
                intro heq
                have hle := foldl_max_mem_le (List.map cf cands) (cf p) (cf q)
                  (List.mem_map_of_mem cf hq)
                rw [← heq] at hle
                exact absurd hgtq (not_lt.mpr hle)
              rw [List.find?_cons_of_neg _ (by simpa using hne)]
            · have hle2 : ∀ x ∈ List.map cf cands, x ≤ cf p := by
                intro x hx
                rcases List.mem_map.mp hx with ⟨q, hq, rfl⟩
                by_contra hlt
                exact hany (List.any_eq_true.mpr ⟨q, hq, by simpa using not_le.mp hlt⟩)
              have hM : (List.map cf cands).foldl max (cf p) = cf p := foldl_max_le_init hle2
              rw [if_neg (by simpa using hany), if_pos (List.any_eq_true.mpr
                ⟨p, by simp, by simpa using hgt⟩), hmax, hM]
              rw [List.find?_cons_of_pos _ (by simp)]
              rfl
          · have hstep : routeStep request context exclude (b, c) p = (b, c) := by
              rw [routeStep, if_neg hexc]
              simp only [if_neg (fun h : _ ∧ _ => hgt h.2)]
            rw [List.foldl_cons, hstep, ih b c, hfilter]
            have hdec : (decide ((p.2.canHandle request context).2 > c)) = false := by
              simpa using hgt
            simp only [List.map_cons, List.foldl_cons, List.any_cons, hdec, Bool.false_or,
              max_eq_left (not_lt.mp hgt)]
            set cands := l.filter
              (fun q => decide (q.1 ∉ exclude) && (q.2.canHandle request context).1) with hcands
            by_cases hany :
                cands.any (fun q => (q.2.canHandle request context).2 > c) = true
            · rw [if_pos hany, if_pos hany]
              rcases List.any_eq_true.mp hany with ⟨q, hq, hgtq⟩
              simp only [decide_eq_true_eq] at hgtq
              have hne : ¬ ((p.2.canHandle request context).2 =
                  (List.map (fun q => (q.2.canHandle request context).2) cands).foldl max c) := by
                intro heq
                have hle := foldl_max_mem_le
                  (List.map (fun q => (q.2.canHandle request context).2) cands) c
                  ((q.2.canHandle request context).2)
                  (List.mem_map_of_mem (fun q => (q.2.canHandle request context).2) hq)
                rw [← heq] at hle
                have hle2 : (q.2.canHandle request context).2 ≤ c :=
                  le_trans hle (not_lt.mp hgt)
                exact absurd hgtq (not_lt.mpr hle2)
              rw [List.find?_cons_of_neg _ (by simpa using hne)]
            · rw [if_neg (by simpa using hany), if_neg (by simpa using hany)]
        · have hstep : routeStep request context exclude (b, c) p = (b, c) := by
            rw [routeStep, if_neg hexc]
            simp only [if_neg (fun h : _ ∧ _ => hch h.1)]
          rw [List.foldl_cons, hstep, ih b c]
          have hfilter : (p :: l).filter
              (fun q => decide (q.1 ∉ exclude) && (q.2.canHandle request context).1) =
              l.filter (fun q => decide (q.1 ∉ exclude) && (q.2.canHandle request context).1) := by
            simp [List.filter_cons, hexc, hch]
          rw [hfilter]

/-- C7: `route_request` returns the first-registered provider attaining the
strictly greatest confidence among non-excluded providers whose
`can_handle` is true, with that confidence; only strictly greater
confidences replace the running maximum (initially 0), so ties resolve to
the first-registered provider and `(none, 0.0)` is returned when no
eligible provider's confidence exceeds 0. -/
theorem routeRequest_spec (registry : Registry) (request : String)
    (context : AgentContext) (exclude : List AgentType) :
    routeRequest registry request context exclude =
      (let cands := registry.filter
          (fun p => decide (p.1 ∉ exclude) && (p.2.canHandle request context).1)
       let M := (cands.map (fun p => (p.2.canHandle request context).2)).foldl max 0
       if cands.any (fun p => (p.2.canHandle request context).2 > 0) then
         ((cands.find? (fun p => (p.2.canHandle request context).2 = M)).map (·.2), M)
       else (none, (0 : Rat))) :=
  routeRequest_go request context exclude registry none 0

/-- Two equally-confident providers: routing yields the first-registered
one (the spec's tie-break test), shown by evaluating `routeRequest_spec`
at a concrete registry. -/
theorem routeRequest_spec_witness :
    (routeRequest
        [(.task, { agent_type := .task, canHandle := fun _ _ => (true, 1/2),
                   shouldHandoff := fun _ _ => none, execute := fun _ _ => .error "x" }),
         (.grant, { agent_type := .grant, canHandle := fun _ _ => (true, 1/2),
                    shouldHandoff := fun _ _ => none, execute := fun _ _ => .error "x" })]
        "msg" demoContext []).1.map (·.agent_type) = some AgentType.task ∧
    (routeRequest
        [(.task, { agent_type := .task, canHandle := fun _ _ => (true, 1/2),
                   shouldHandoff := fun _ _ => none, execute := fun _ _ => .error "x" }),
         (.grant, { agent_type := .grant, canHandle := fun _ _ => (true, 1/2),
                    shouldHandoff := fun _ _ => none, execute := fun _ _ => .error "x" })]
        "msg" demoContext []).2 = 1/2 := by
  have h := routeRequest_spec
    [(.task, { agent_type := .task, canHandle := fun _ _ => (true, 1/2),
               shouldHandoff := fun _ _ => none, execute := fun _ _ => .error "x" }),
     (.grant, { agent_type := .grant, canHandle := fun _ _ => (true, 1/2),
                shouldHandoff := fun _ _ => none, execute := fun _ _ => .error "x" })]
    "msg" demoContext []
  rw [h]
  norm_num

/-! ## C2: retry loop of _execute_workflow_step -/

/-- An attempt outcome that consumes one retry: a timeout, or a returned
result whose status is not completed. -/
def consumesRetry (o : Outcome) : Prop :=
  o = .timeout ∨ ∃ res, o = .success res ∧ res.status ≠ AgentStatus.completed

/-- The "last error" recorded for an attempt outcome
(`orchestrator.py:388,392`). -/
def lastErrorOf (o : Outcome) : String :=
  match o with
  | .timeout => "Step timed out"
  | .success res => pyOr res.error "Agent execution failed"
  | .raises m => m

theorem retryLoop_calls_le (attempts : Nat → String → Outcome) (prompt : String) :
    ∀ (k i : Nat) (last : Option String),
      (retryLoop attempts prompt i k last).2 ≤ k := by
  intro k
  induction k with
  | zero => intro i last; simp [retryLoop]
  | succ k ih =>
      intro i last
      rw [retryLoop]
      cases attempts i prompt with
      | timeout => simpa using Nat.add_le_add_right (ih (i + 1) _) 1
      | raises msg => simp
      | success res =>
          by_cases h : res.status = AgentStatus.completed
          · simp [h]
          · simpa [h] using Nat.add_le_add_right (ih (i + 1) _) 1

theorem retryLoop_first_success (attempts : Nat → String → Outcome) (prompt : String) :
    ∀ (j k i : Nat) (last : Option String), j < k →
      (∀ j', j' < j → consumesRetry (attempts (i + j') prompt)) →
      ∀ res, attempts (i + j) prompt = .success res → res.status = AgentStatus.completed →
      retryLoop attempts prompt i k last = (.done res.output, j + 1) := by
  intro j
  induction j with
  | zero =>
      intro k i last hk _ res hres hst
      cases k with
      | zero => omega
      | succ k =>
          rw [retryLoop]
          simp only [Nat.add_zero] at hres
          rw [hres]
          simp [hst]
  | succ j ih =>
      intro k i last hk hcons res hres hst
      cases k with
      | zero => omega
      | succ k =>
          have h0 : consumesRetry (attempts (i + 0) prompt) := hcons 0 (by omega)
          have hshift : ∀ j', j' < j → consumesRetry (attempts ((i + 1) + j') prompt) := by
            intro j' hj'
            have := hcons (j' + 1) (by omega)
            simpa [Nat.add_assoc, Nat.add_comm 1 j'] using this
          have hres' : attempts ((i + 1) + j) prompt = .success res := by
            simpa [Nat.add_assoc, Nat.add_comm 1 j] using hres
          have hrec : ∀ last', retryLoop attempts prompt (i + 1) k last' =
              (.done res.output, j + 1) :=
            fun last' => ih k (i + 1) last' (by omega) hshift res hres' hst
          rw [retryLoop]
          simp only [Nat.add_zero] at h0
          rcases h0 with h0 | ⟨res0, h0, hst0⟩
          · rw [h0]
            simp [hrec]
          · rw [h0]
            simp [hst0, hrec]

theorem retryLoop_exhausted (attempts : Nat → String → Outcome) (prompt : String) :
    ∀ (k i : Nat) (last : Option String), 0 < k →
      (∀ j, j < k → consumesRetry (attempts (i + j) prompt)) →
      retryLoop attempts prompt i k last =
        (.exhausted (some (lastErrorOf (attempts (i + (k - 1)) prompt))), k) := by
  intro k
  induction k with
  | zero => intro i last h; omega
  | succ k ih =>
      intro i last _ hcons
      have h0 : consumesRetry (attempts (i + 0) prompt) := hcons 0 (by omega)
      simp only [Nat.add_zero] at h0
      cases k with
      | zero =>
          rw [retryLoop]
          rcases h0 with h0 | ⟨res0, h0, hst0⟩
          · rw [h0]
            simp [retryLoop, lastErrorOf, h0]
          · rw [h0]
            simp [retryLoop, lastErrorOf, hst0, h0]
      | succ k =>
          have hshift : ∀ j, j < k + 1 → consumesRetry (attempts ((i + 1) + j) prompt) := by
            intro j hj
            have := hcons (j + 1) (by omega)
            simpa [Nat.add_assoc, Nat.add_comm 1 j] using this
          have hrec := ih (i + 1) (some (lastErrorOf (attempts i prompt))) (by omega) hshift
          have hidx : (i + 1) + (k + 1 - 1) = i + (k + 1 + 1 - 1) := by omega
          rw [retryLoop]
          rcases h0 with h0 | ⟨res0, h0, hst0⟩
          · rw [h0]
            rw [show retryLoop attempts prompt (i + 1) (k + 1) (some "Step timed out") =
              (.exhausted (some (lastErrorOf (attempts ((i + 1) + (k + 1 - 1)) prompt))), k + 1) from
              ih (i + 1) _ (by omega) hshift]
            simp only [hidx]
          · rw [h0]
            simp only [if_neg hst0]
            rw [show retryLoop attempts prompt (i + 1) (k + 1)
                (some (pyOr res0.error "Agent execution failed")) =
              (.exhausted (some (lastErrorOf (attempts ((i + 1) + (k + 1 - 1)) prompt))), k + 1) from
              ih (i + 1) _ (by omega) hshift]
            simp only [hidx]

/-- C2: with retry count `r` and a registered agent,
`_execute_workflow_step` makes at most `r + 1` provider calls; the first
attempt returning a completed result ends the loop with a completed step
result carrying that attempt's output; if every one of the `r + 1` attempts
times out or returns a non-completed result, the step result is failed and
carries the last observed error. -/
theorem executeWorkflowStep_retries (registry : Registry)
    (attempts : Nat → String → Outcome) (ctr : Nat) (step : WorkflowStep)
    (execution : Execution) (winput : Dict) (r : Nat)
    (hr : step.retries = (r : Int)) (agent : Agent)
    (hag : registryGet registry step.agent = some agent) :
    (executeWorkflowStep registry attempts ctr step execution winput).2 ≤ ctr + (r + 1) ∧
    (∀ j, j ≤ r →
      (∀ j', j' < j → consumesRetry (attempts (ctr + j') (stepPrompt step execution winput))) →
      ∀ res, attempts (ctr + j) (stepPrompt step execution winput) = .success res →
        res.status = AgentStatus.completed →
        executeWorkflowStep registry attempts ctr step execution winput =
          (⟨step.id, .completed, some res.output, none, step.agent⟩, ctr + (j + 1))) ∧
    ((∀ j, j ≤ r → consumesRetry (attempts (ctr + j) (stepPrompt step execution winput))) →
      executeWorkflowStep registry attempts ctr step execution winput =
        (⟨step.id, .failed, none,
            some (lastErrorOf (attempts (ctr + r) (stepPrompt step execution winput))),
            step.agent⟩,
         ctr + (r + 1))) := by
  have htn : (step.retries + 1).toNat = r + 1 := by rw [hr]; omega
  refine ⟨?_, ?_, ?_⟩
  · unfold executeWorkflowStep
    rw [hag]
    simp only [htn]
    have := retryLoop_calls_le attempts (stepPrompt step execution winput) (r + 1) ctr none
    cases hloop : retryLoop attempts (stepPrompt step execution winput) ctr (r + 1) none with
    | mk res calls =>
        rw [hloop] at this
        cases res <;> simpa using Nat.add_le_add_left this ctr
  · intro j hj hcons res hres hst
    unfold executeWorkflowStep
    rw [hag]
    simp only [htn]
    rw [retryLoop_first_success attempts (stepPrompt step execution winput) j (r + 1) ctr none
      (by omega) hcons res hres hst]
  · intro hcons
    unfold executeWorkflowStep
    rw [hag]
    simp only [htn]
    rw [retryLoop_exhausted attempts (stepPrompt step execution winput) (r + 1) ctr none
      (by omega) (fun j hj => hcons j (by omega))]
    simp

/-- A provider result that completes. -/
def demoOkResult : AgentResult :=
  { result_id := "r1", status := .completed, output := [("response", .vstr "done")] }

/-- A provider result that fails. -/
def demoFailResult : AgentResult :=
  { result_id := "r0", status := .failed, output := [], error := some "err1" }

/-- Outcome stream failing attempts 1 and 2 and succeeding on attempt 3
(the spec's retry test). -/
def demoAttempts : Nat → String → Outcome := fun n _ =>
  if n = 0 then .success demoFailResult
  else if n = 1 then .timeout
  else .success demoOkResult

/-- A step with `retries = 2` bound to the planner agent. -/
def demoStep : WorkflowStep :=
  { id := "s1", name := "Step one", agent := .planner, action := "act", input := [], retries := 2 }

/-- A registry holding only the planner agent. -/
def demoRegistry : Registry := [(.planner, demoFailingAgent)]

/-- Witness for C2: with `retries = 2`, failures on attempts 1 and 2 and a
success on attempt 3, the recorded step result is completed with the
successful attempt's output after exactly 3 calls. -/
theorem executeWorkflowStep_retries_witness :
    executeWorkflowStep demoRegistry demoAttempts 0 demoStep {} [] =
      (⟨"s1", .completed, some [("response", .vstr "done")], none, AgentType.planner⟩,
       0 + (2 + 1)) := by
  have h := (executeWorkflowStep_retries demoRegistry demoAttempts 0 demoStep {} [] 2
    (by norm_num [demoStep]) demoFailingAgent rfl).2.1 2 (by omega)
    (by
      intro j' hj'
      interval_cases j'
      · exact Or.inr ⟨demoFailResult, rfl, by decide⟩
      · exact Or.inl rfl)
    demoOkResult rfl rfl
  simpa [demoStep, demoOkResult] using h

/-! ## C3/C10: reference resolution -/

theorem scanTemplates_nil (repl : String → String) : scanTemplates repl [] = [] := by
  simp [scanTemplates]

theorem scanTemplates_cons_ne (repl : String → String) (c : Char) (rest : List Char)
    (h : c ≠ '{') :
    scanTemplates repl (c :: rest) = c :: scanTemplates repl rest := by
  rw [scanTemplates]
  rw [if_neg (fun hc => h hc.1)]

theorem scanTemplates_append_nonbrace (repl : String → String) (pre rest : List Char)
    (h : ∀ c ∈ pre, c ≠ '{') :
    scanTemplates repl (pre ++ rest) = pre ++ scanTemplates repl rest := by
  induction pre with
  | nil => simp
  | cons c pre ih =>
      rw [List.cons_append, scanTemplates_cons_ne repl c _ (h c (by simp)),
        ih (fun x hx => h x (by simp [hx]))]
      rfl

theorem span_nonbrace (l1 xs : List Char) (h : ∀ c ∈ l1, c ≠ '}') :
    (l1 ++ '}' :: xs).span (fun ch => ch ≠ '}') = (l1, '}' :: xs) := by
  induction l1 with
  | nil => simp [List.span_eq_take_drop, List.takeWhile_cons, List.dropWhile_cons]
  | cons c l1 ih =>
      have hc : c ≠ '}' := h c (by simp)
      have ih' := ih (fun x hx => h x (by simp [hx]))
      rw [List.span_eq_take_drop] at ih' ⊢
      have h1 := congrArg Prod.fst ih'
      have h2 := congrArg Prod.snd ih'
      simp only at h1 h2
      simp only [decide_not] at h1 h2
      simp only [List.cons_append, List.takeWhile_cons, List.dropWhile_cons, decide_not]
      simp [hc, h1, h2]

theorem scanTemplates_match (repl : String → String) (ref post : List Char)
    (h1 : ref ≠ []) (h2 : ∀ c ∈ ref, c ≠ '}') :
    scanTemplates repl ('{' :: '{' :: (ref ++ '}' :: '}' :: post)) =
      (repl (String.mk ref)).toList ++ scanTemplates repl post := by
  rw [scanTemplates]
  rw [if_pos ⟨rfl, rfl⟩]
  simp only [List.tail_cons]
  rw [span_nonbrace ref ('}' :: post) h2]
  simp [h1]

/-- Resolution of a string containing one well-formed template whose prefix
holds no `{`: the `re.sub` pass keeps the prefix, replaces the template by
the replacer's output, and continues on the suffix. -/
theorem resolveString_one_template (execution : Execution) (winput : Dict)
    (pre post ref : String)
    (hpre : ∀ c ∈ pre.toList, c ≠ '{')
    (href1 : ref.toList ≠ []) (href2 : ∀ c ∈ ref.toList, c ≠ '}') :
    resolveString execution winput (pre ++ ("\x7b\x7b" ++ ref ++ "\x7d\x7d") ++ post) =
      pre ++ templateRef execution winput ref ++ resolveString execution winput post := by
  unfold resolveString
  have h1 : (pre ++ ("\x7b\x7b" ++ ref ++ "\x7d\x7d") ++ post).toList =
      pre.toList ++ ('{' :: '{' :: (ref.toList ++ '}' :: '}' :: post.toList)) := by
    show pre.toList ++ (('{' :: '{' :: ref.toList) ++ '}' :: '}' :: []) ++ post.toList = _
    simp
  rw [h1, scanTemplates_append_nonbrace _ _ _ hpre,
    scanTemplates_match _ _ _ href1 href2]
  show String.mk (pre.toList ++ ((templateRef execution winput ref).toList ++
    scanTemplates (templateRef execution winput) post.toList)) = _
  rw [← List.append_assoc]
  rfl

/-- Evaluation of the replacer on the reference `steps.a.output.x` with a
symbolic execution state. -/
theorem templateRef_steps_a_x (execution : Execution) (winput : Dict) :
    templateRef execution winput "steps.a.output.x" =
      (match execution.find "a" with
       | some result =>
           match result.output with
           | some out =>
               if !out.isEmpty then
                 if (navigateOutput (.vdict out) ["x"]).truthy then
                   (navigateOutput (.vdict out) ["x"]).pyStr
                 else ""
               else ""
           | none => ""
       | none => "") := by
  unfold templateRef
  rw [show pyStrip "steps.a.output.x" = "steps.a.output.x" from by decide]
  rw [if_neg (by decide), if_pos (by decide)]
  rw [show pySplit "steps.a.output.x" '.' = ["steps", "a", "output", "x"] from by decide]
  rfl

/-- C3: an input string holding the template `{{steps.a.output.x}}` (with a
brace-free prefix) resolves the template to the string recorded under `x`
in step `a`'s output when `a` completed with that output; when `a` has no
recorded result, or its recorded result carries no output, the template
resolves to the empty string.  The last conjunct ties "not completed" to
"no output": every step result the engine records with a status other than
completed has `output = None`. -/
theorem resolveReferences_steps_template (execution : Execution) (winput : Dict)
    (pre post : String) (hpre : ∀ c ∈ pre.toList, c ≠ '{') :
    (∀ res out, execution.find "a" = some res → res.output = some out → out ≠ [] →
      dictFind out "x" = some (.vstr "42") →
      resolveString execution winput (pre ++ "\x7b\x7bsteps.a.output.x\x7d\x7d" ++ post) =
        pre ++ "42" ++ resolveString execution winput post) ∧
    (execution.find "a" = none →
      resolveString execution winput (pre ++ "\x7b\x7bsteps.a.output.x\x7d\x7d" ++ post) =
        pre ++ "" ++ resolveString execution winput post) ∧
    (∀ res, execution.find "a" = some res → res.output = none →
      resolveString execution winput (pre ++ "\x7b\x7bsteps.a.output.x\x7d\x7d" ++ post) =
        pre ++ "" ++ resolveString execution winput post) ∧
    (∀ (registry : Registry) (attempts : Nat → String → Outcome) (ctr : Nat)
        (step : WorkflowStep) (ex2 : Execution) (wi2 : Dict),
      (executeWorkflowStep registry attempts ctr step ex2 wi2).1.status ≠
          StepStatus.completed →
      (executeWorkflowStep registry attempts ctr step ex2 wi2).1.output = none) := by
  have hlit : ("\x7b\x7bsteps.a.output.x\x7d\x7d" : String) =
      "\x7b\x7b" ++ "steps.a.output.x" ++ "\x7d\x7d" := rfl
  have hbase := resolveString_one_template execution winput pre post "steps.a.output.x"
    hpre (by decide) (by decide)
  refine ⟨?_, ?_, ?_, ?_⟩
  · intro res out hfind hout hne hdict
    rw [hlit, hbase, templateRef_steps_a_x, hfind]
    have hnav : navigateOutput (.vdict out) ["x"] = Value.vstr "42" := by
      simp [navigateOutput, hdict]
    have hemp : out.isEmpty = false := by
      cases out with
      | nil => exact absurd rfl hne
      | cons p l => rfl
    simp only [hout, hemp, hnav]
    rfl
  · intro hfind
    rw [hlit, hbase, templateRef_steps_a_x, hfind]
  · intro res hfind hout
    rw [hlit, hbase, templateRef_steps_a_x, hfind]
    simp only [hout]
  · intro registry attempts ctr step ex2 wi2 hst
    unfold executeWorkflowStep at hst ⊢
    cases hag : registryGet registry step.agent with
    | none => simp [hag]
    | some agent =>
        simp only [hag] at hst ⊢
        cases hrun : (retryLoop attempts (stepPrompt step ex2 wi2) ctr
            (step.retries + 1).toNat none).1 with
        | done output =>
            simp only [hrun] at hst
            exact absurd rfl hst
        | exhausted last => simp [hrun]
        | raised msg => simp [hrun]

/-- Witness for C3: a concrete execution record where step `a` completed
with output `{x: "42"}`, a later field referencing it, and the three
negative shapes. -/
theorem resolveReferences_steps_template_witness :
    resolveString
        { step_results := [("a",
            { step_id := "a", status := .completed,
              output := some [("x", Value.vstr "42")], agent_type := .task })] } []
        ("x=" ++ "\x7b\x7bsteps.a.output.x\x7d\x7d" ++ "!") =
      "x=" ++ "42" ++ resolveString
        { step_results := [("a",
            { step_id := "a", status := .completed,
              output := some [("x", Value.vstr "42")], agent_type := .task })] } [] "!" ∧
    resolveString ({} : Execution) []
        ("x=" ++ "\x7b\x7bsteps.a.output.x\x7d\x7d" ++ "!") =
      "x=" ++ "" ++ resolveString ({} : Execution) [] "!" :=
  ⟨(resolveReferences_steps_template
      { step_results := [("a",
          { step_id := "a", status := .completed,
            output := some [("x", Value.vstr "42")], agent_type := .task })] } []
      "x=" "!" (by decide)).1
      { step_id := "a", status := .completed,
        output := some [("x", Value.vstr "42")], agent_type := .task }
      [("x", Value.vstr "42")] rfl rfl (by simp) rfl,
   (resolveReferences_steps_template ({} : Execution) [] "x=" "!" (by decide)).2.1 rfl⟩

/-- C10: when navigation through the referenced step's output succeeds and
yields value `v`, the template resolves to `str(v)` only if `v` is truthy,
and to the empty string otherwise (falsy values such as `0`, `False`, `""`,
empty containers, and `None` are swallowed). -/
theorem resolveReferences_falsy_navigation (execution : Execution) (winput : Dict)
    (pre post : String) (hpre : ∀ c ∈ pre.toList, c ≠ '{') :
    ∀ res out v, execution.find "a" = some res → res.output = some out → out ≠ [] →
      dictFind out "x" = some v →
      resolveString execution winput (pre ++ "\x7b\x7bsteps.a.output.x\x7d\x7d" ++ post) =
        pre ++ (if v.truthy then v.pyStr else "") ++ resolveString execution winput post := by
  intro res out v hfind hout hne hdict
  have hlit : ("\x7b\x7bsteps.a.output.x\x7d\x7d" : String) =
      "\x7b\x7b" ++ "steps.a.output.x" ++ "\x7d\x7d" := rfl
  have hbase := resolveString_one_template execution winput pre post "steps.a.output.x"
    hpre (by decide) (by decide)
  rw [hlit, hbase, templateRef_steps_a_x, hfind]
  have hnav : navigateOutput (.vdict out) ["x"] = v := by
    simp [navigateOutput, hdict]
  have hemp : out.isEmpty = false := by
    cases out with
    | nil => exact absurd rfl hne
    | cons p l => rfl
  simp only [hout, hemp, hnav]
  by_cases htr : v.truthy = true
  · simp [htr]
  · simp only [Bool.not_eq_true] at htr
    simp [htr]

/-- Witness for C10: a recorded output holding the falsy integer `0`
resolves to the empty string, not `"0"`. -/
theorem resolveReferences_falsy_navigation_witness :
    resolveString
        { step_results := [("a",
            { step_id := "a", status := .completed,
              output := some [("x", Value.vint 0)], agent_type := .task })] } []
        ("n=" ++ "\x7b\x7bsteps.a.output.x\x7d\x7d" ++ ".") =
      "n=" ++ (if (Value.vint 0).truthy then (Value.vint 0).pyStr else "") ++
        resolveString
          { step_results := [("a",
              { step_id := "a", status := .completed,
                output := some [("x", Value.vint 0)], agent_type := .task })] } [] "." ∧
    (Value.vint 0).truthy = false :=
  ⟨resolveReferences_falsy_navigation
      { step_results := [("a",
          { step_id := "a", status := .completed,
            output := some [("x", Value.vint 0)], agent_type := .task })] } []
      "n=" "." (by decide)
      { step_id := "a", status := .completed,
        output := some [("x", Value.vint 0)], agent_type := .task }
      [("x", Value.vint 0)] (Value.vint 0) rfl rfl (by simp) rfl,
   by decide⟩

/-! ## C8: condition evaluation -/

/-- Counterexample to C8 as stated: an `if` condition referencing a step
with no recorded result proceeds (evaluates true), although the referenced
step's recorded status is not completed (there is none). -/
theorem evaluateCondition_unrecorded_proceeds :
    evaluateCondition ⟨CondKind.condIf, some "steps.b.ok"⟩ ({} : Execution) [] = true ∧
    Execution.find ({} : Execution) "b" = none ∧
    ¬ ∃ r, Execution.find ({} : Execution) "b" = some r ∧
        r.status = StepStatus.completed := by
  refine ⟨by decide, rfl, ?_⟩
  rintro ⟨r, hr, _⟩
  simp [Execution.find] at hr

/-- C8 amended: `always` conditions proceed; `if`/`unless` conditions
referencing `steps.<id>` proceed exactly by the recorded status of that
step when it has a recorded result, and proceed when it has none; a missing,
empty, or non-`steps.` expression proceeds; a step whose condition evaluates
false is recorded as skipped and the loop continues; and a skipped recorded
result counts as satisfied for dependents. -/
theorem evaluateCondition_spec :
    (∀ (c : WorkflowCondition) (ex : Execution) (inp : Dict),
      c.type = CondKind.always → evaluateCondition c ex inp = true) ∧
    (∀ (c : WorkflowCondition) (ex : Execution) (inp : Dict) (e sid : String)
        (r : WorkflowStepResult),
      (c.type = CondKind.condIf ∨ c.type = CondKind.condUnless) →
      c.expression = some e → e ≠ "" → pyStartsWith e "steps." = true →
      ((pySplit e '.').get? 1).getD "" = sid → ex.find sid = some r →
      (evaluateCondition c ex inp = true ↔
        (if c.type = CondKind.condIf then r.status = StepStatus.completed
         else r.status ≠ StepStatus.completed))) ∧
    (∀ (c : WorkflowCondition) (ex : Execution) (inp : Dict) (e sid : String),
      (c.type = CondKind.condIf ∨ c.type = CondKind.condUnless) →
      c.expression = some e → e ≠ "" → pyStartsWith e "steps." = true →
      ((pySplit e '.').get? 1).getD "" = sid → ex.find sid = none →
      evaluateCondition c ex inp = true) ∧
    (∀ (c : WorkflowCondition) (ex : Execution) (inp : Dict),
      c.expression = none → evaluateCondition c ex inp = true) ∧
    (∀ (c : WorkflowCondition) (ex : Execution) (inp : Dict) (e : String),
      c.expression = some e → (e = "" ∨ pyStartsWith e "steps." = false) →
      evaluateCondition c ex inp = true) ∧
    (∀ (registry : Registry) (attempts : Nat → String → Outcome)
        (steps : List WorkflowStep) (eh : ErrorHandling) (winput : Dict)
        (step_id : String) (step : WorkflowStep) (rest : List String)
        (ex : Execution) (ctr : Nat) (tr : List String) (c : WorkflowCondition),
      steps.find? (fun s => s.id = step_id) = some step →
      dependenciesSatisfied step { ex with current_step := some step_id } = true →
      step.condition = some c →
      evaluateCondition c { ex with current_step := some step_id } winput = false →
      orchLoop registry attempts steps eh winput (step_id :: rest) ex ctr tr =
        orchLoop registry attempts steps eh winput rest
          { step_results := setResult ex.step_results step_id
              (skippedResult step_id step.agent)
            current_step := some step_id } ctr tr) ∧
    (∀ (step : WorkflowStep) (ex : Execution),
      dependenciesSatisfied step ex = true ↔
        ∀ dep ∈ step.depends_on, ∃ r, ex.find dep = some r ∧
          (r.status = StepStatus.completed ∨ r.status = StepStatus.skipped)) := by
  refine ⟨?_, ?_, ?_, ?_, ?_, ?_, ?_⟩
  · intro c ex inp h
    unfold evaluateCondition
    rw [if_pos h]
  · intro c ex inp e sid r htype hexp hne hsw hsid hfind
    have hnota : c.type ≠ CondKind.always := by
      rcases htype with h | h <;> rw [h] <;> intro hh <;> cases hh
    unfold evaluateCondition
    rw [if_neg hnota, hexp]
    simp only [hsw, hsid, hfind, if_pos hne]
    rcases htype with h | h
    · rw [h]
      simp
    · rw [h]
      have : (CondKind.condUnless = CondKind.condIf) = False := by simp
      simp [this]
  · intro c ex inp e sid htype hexp hne hsw hsid hfind
    have hnota : c.type ≠ CondKind.always := by
      rcases htype with h | h <;> rw [h] <;> intro hh <;> cases hh
    unfold evaluateCondition
    rw [if_neg hnota, hexp]
    simp only [hsw, hsid, hfind, if_pos hne]
    simp
  · intro c ex inp hexp
    unfold evaluateCondition
    rw [hexp]
    by_cases h : c.type = CondKind.always
    · rw [if_pos h]
    · rw [if_neg h]
  · intro c ex inp e hexp hcase
    unfold evaluateCondition
    rw [hexp]
    by_cases h : c.type = CondKind.always
    · rw [if_pos h]
    · rw [if_neg h]
      rcases hcase with h' | h'
      · rw [h']
        simp
      · simp [h']
  · intro registry attempts steps eh winput step_id step rest ex ctr tr c hfind hdeps hcond hfalse
    rw [orchLoop]
    simp only [hfind, hdeps, hcond, hfalse]
    simp [skippedResult]
  · intro step ex
    unfold dependenciesSatisfied
    rw [List.all_eq_true]
    constructor
    · intro h dep hdep
      have := h dep hdep
      cases hf : ex.find dep with
      | none => rw [hf] at this; cases this
      | some r =>
          rw [hf] at this
          exact ⟨r, rfl, by simpa using this⟩
    · intro h dep hdep
      rcases h dep hdep with ⟨r, hr, hst⟩
      rw [hr]
      simpa using hst

/-- A completed recorded result for step `p`. -/
def demoCompletedP : WorkflowStepResult := ⟨"p", .completed, none, none, .task⟩

/-- A skipped recorded result for step `p`. -/
def demoSkippedP : WorkflowStepResult := ⟨"p", .skipped, none, none, .task⟩

/-- An execution with step `p` recorded completed. -/
def demoExP : Execution := { step_results := [("p", demoCompletedP)] }

/-- An execution with step `p` recorded skipped. -/
def demoExPSkipped : Execution := { step_results := [("p", demoSkippedP)] }

/-- A step depending on `p`. -/
def demoStepQ : WorkflowStep :=
  { id := "q", name := "q", agent := .task, action := "a", input := [], depends_on := ["p"] }

/-- Witness for the amended C8 at concrete conditions and executions:
an `always` condition, an `if` condition over a recorded completed step,
and the dependency characterization over a skipped record. -/
theorem evaluateCondition_spec_witness :
    evaluateCondition ⟨CondKind.always, none⟩ ({} : Execution) [] = true ∧
    (evaluateCondition ⟨CondKind.condIf, some "steps.p.ok"⟩ demoExP [] = true ↔
      (if (⟨CondKind.condIf, some "steps.p.ok"⟩ : WorkflowCondition).type = CondKind.condIf
       then demoCompletedP.status = StepStatus.completed
       else demoCompletedP.status ≠ StepStatus.completed)) ∧
    (dependenciesSatisfied demoStepQ demoExPSkipped = true ↔
      ∀ dep ∈ demoStepQ.depends_on, ∃ r, demoExPSkipped.find dep = some r ∧
        (r.status = StepStatus.completed ∨ r.status = StepStatus.skipped)) :=
  ⟨evaluateCondition_spec.1 ⟨CondKind.always, none⟩ ({} : Execution) [] rfl,
   evaluateCondition_spec.2.1 ⟨CondKind.condIf, some "steps.p.ok"⟩ demoExP []
     "steps.p.ok" "p" demoCompletedP (Or.inl rfl) rfl (by decide) (by decide) (by decide) rfl,
   evaluateCondition_spec.2.2.2.2.2.2 demoStepQ demoExPSkipped⟩

/-! ## C4: fallback policy -/

theorem find_map_replace (rs : List (String × WorkflowStepResult)) (k : String)
    (v : WorkflowStepResult) (h : rs.any (fun p => p.1 = k) = true) :
    (((rs.map (fun p => if p.1 = k then (k, v) else p)).find?
        (fun p => p.1 = k)).map (·.2)) = some v := by
  induction rs with
  | nil => cases h
  | cons p rs ih =>
      by_cases hp : p.1 = k
      · simp only [List.map_cons, if_pos hp]
        rw [List.find?_cons_of_pos _ (by simp)]
        rfl
      · simp only [List.map_cons, if_neg hp]
        rw [List.find?_cons_of_neg _ (by simpa using hp)]
        have h' : rs.any (fun p => p.1 = k) = true := by
          simp only [List.any_cons] at h
          rcases Bool.or_eq_true_iff.mp h with h1 | h1
          · exact absurd (by simpa using h1) hp
          · exact h1
        exact ih h'

theorem find_append_new (rs : List (String × WorkflowStepResult)) (k : String)
    (v : WorkflowStepResult) (h : rs.any (fun p => p.1 = k) = false) :
    (((rs ++ [(k, v)]).find? (fun p => p.1 = k)).map (·.2)) = some v := by
  induction rs with
  | nil =>
      simp only [List.nil_append]
      rw [List.find?_cons_of_pos _ (by simp)]
      rfl
  | cons p rs ih =>
      simp only [List.any_cons, Bool.or_eq_false_iff] at h
      rw [List.cons_append, List.find?_cons_of_neg _ (by simpa using h.1)]
      exact ih h.2

/-- Looking up the overwritten key after `setResult` yields the new value. -/
theorem find_setResult_self (rs : List (String × WorkflowStepResult)) (k : String)
    (v : WorkflowStepResult) :
    (((setResult rs k v).find? (fun p => p.1 = k)).map (·.2)) = some v := by
  unfold setResult
  by_cases h : rs.any (fun p => p.1 = k) = true
  · rw [if_pos h]
    exact find_map_replace rs k v h
  · rw [if_neg h]
    exact find_append_new rs k v (Bool.eq_false_iff.mpr h)

theorem find_map_replace_ne (rs : List (String × WorkflowStepResult)) (k k' : String)
    (v : WorkflowStepResult) (h : k' ≠ k) :
    (((rs.map (fun p => if p.1 = k then (k, v) else p)).find?
        (fun p => p.1 = k')).map (·.2)) =
      ((rs.find? (fun p => p.1 = k')).map (·.2)) := by
  induction rs with
  | nil => rfl
  | cons p rs ih =>
      by_cases hpk : p.1 = k
      · have hp' : ¬ p.1 = k' := by rw [hpk]; exact fun hh => h hh.symm
        have hkk' : ¬ (k : String) = k' := fun hh => h hh.symm
        simp only [List.map_cons, if_pos hpk]
        rw [List.find?_cons_of_neg _ (by simpa using hkk'),
          List.find?_cons_of_neg _ (by simpa using hp')]
        exact ih
      · simp only [List.map_cons, if_neg hpk]
        by_cases hp : p.1 = k'
        · rw [List.find?_cons_of_pos _ (by simpa using hp),
            List.find?_cons_of_pos _ (by simpa using hp)]
        · rw [List.find?_cons_of_neg _ (by simpa using hp),
            List.find?_cons_of_neg _ (by simpa using hp)]
          exact ih

theorem find_append_ne (rs : List (String × WorkflowStepResult)) (k k' : String)
    (v : WorkflowStepResult) (h : k' ≠ k) :
    (((rs ++ [(k, v)]).find? (fun p => p.1 = k')).map (·.2)) =
      ((rs.find? (fun p => p.1 = k')).map (·.2)) := by
  induction rs with
  | nil =>
      have hkk' : ¬ (k : String) = k' := fun hh => h hh.symm
      simp only [List.nil_append]
      rw [List.find?_cons_of_neg _ (by simpa using hkk')]
  | cons p rs ih =>
      by_cases hp : p.1 = k'
      · rw [List.cons_append, List.find?_cons_of_pos _ (by simpa using hp),
          List.find?_cons_of_pos _ (by simpa using hp)]
      · rw [List.cons_append, List.find?_cons_of_neg _ (by simpa using hp),
          List.find?_cons_of_neg _ (by simpa using hp)]
        exact ih

/-- Other keys are untouched by `setResult`. -/
theorem find_setResult_ne (rs : List (String × WorkflowStepResult)) (k k' : String)
    (v : WorkflowStepResult) (h : k' ≠ k) :
    (((setResult rs k v).find? (fun p => p.1 = k')).map (·.2)) =
      ((rs.find? (fun p => p.1 = k')).map (·.2)) := by
  unfold setResult
  by_cases hany : rs.any (fun p => p.1 = k) = true
  · rw [if_pos hany]
    exact find_map_replace_ne rs k k' v h
  · rw [if_neg hany]
    exact find_append_ne rs k k' v h

/-- Keys outside the remaining order are never written by the loop. -/
theorem orchLoop_find_outside (registry : Registry) (attempts : Nat → String → Outcome)
    (steps : List WorkflowStep) (eh : ErrorHandling) (winput : Dict) :
    ∀ (order : List String) (ex : Execution) (ctr : Nat) (tr : List String) (k : String),
      k ∉ order →
      ((orchLoop registry attempts steps eh winput order ex ctr tr).1).find k = ex.find k := by
  intro order
  induction order with
  | nil =>
      intro ex ctr tr k _
      rfl
  | cons step_id rest ih =>
      intro ex ctr tr k hk
      have hk1 : k ≠ step_id := fun h => hk (h ▸ List.mem_cons_self _ _)
      have hk2 : k ∉ rest := fun h => hk (List.mem_cons_of_mem _ h)
      rw [orchLoop]
      cases hfind : steps.find? (fun s => s.id = step_id) with
      | none => rfl
      | some step =>
          simp only []
          split
          · split
            · rfl
            · exact ih _ _ _ k hk2
          · split
            · rw [ih _ _ _ k hk2]
              show ((setResult ex.step_results step_id _).find? _).map _ = _
              exact find_setResult_ne _ _ _ _ hk1
            · split
              · split
                · show ((setResult ex.step_results step_id _).find? _).map _ = _
                  exact find_setResult_ne _ _ _ _ hk1
                · split
                  · rw [ih _ _ _ k hk2]
                    show ((setResult (setResult ex.step_results step_id _) step_id _).find? _).map _ = _
                    rw [find_setResult_ne _ _ _ _ hk1]
                    exact find_setResult_ne _ _ _ _ hk1
                  · rw [ih _ _ _ k hk2]
                    show ((setResult ex.step_results step_id _).find? _).map _ = _
                    exact find_setResult_ne _ _ _ _ hk1
              · rw [ih _ _ _ k hk2]
                show ((setResult ex.step_results step_id _).find? _).map _ = _
                exact find_setResult_ne _ _ _ _ hk1

/-- Every step id appended to the execution trace by the loop is an id of
the remaining order or the synthesized fallback id of one. -/
theorem orchLoop_trace_shape (registry : Registry) (attempts : Nat → String → Outcome)
    (steps : List WorkflowStep) (eh : ErrorHandling) (winput : Dict) :
    ∀ (order : List String) (ex : Execution) (ctr : Nat) (tr : List String),
      ∃ extra,
        (orchLoop registry attempts steps eh winput order ex ctr tr).2.2.1 = tr ++ extra ∧
        ∀ x ∈ extra, x ∈ order ∨ ∃ y ∈ order, x = y ++ "_fallback" := by
  intro order
  induction order with
  | nil =>
      intro ex ctr tr
      exact ⟨[], by rw [orchLoop]; simp, by simp⟩
  | cons step_id rest ih =>
      intro ex ctr tr
      have hweak : ∀ (extra : List String),
          (∀ x ∈ extra, x ∈ rest ∨ ∃ y ∈ rest, x = y ++ "_fallback") →
          ∀ x ∈ extra, x ∈ step_id :: rest ∨ ∃ y ∈ step_id :: rest, x = y ++ "_fallback" := by
        intro extra h x hx
        rcases h x hx with h' | ⟨y, hy, hxy⟩
        · exact Or.inl (List.mem_cons_of_mem _ h')
        · exact Or.inr ⟨y, List.mem_cons_of_mem _ hy, hxy⟩
      rw [orchLoop]
      cases hfind : steps.find? (fun s => s.id = step_id) with
      | none => exact ⟨[], by simp, by simp⟩
      | some step =>
          have hid : step.id = step_id := by
            have := List.find?_some hfind
            simpa using this
          simp only []
          split
          · split
            · exact ⟨[], by simp, by simp⟩
            · rcases ih _ _ _ with ⟨extra, heq, hmem⟩
              exact ⟨extra, heq, hweak extra hmem⟩
          · split
            · rcases ih _ _ _ with ⟨extra, heq, hmem⟩
              exact ⟨extra, heq, hweak extra hmem⟩
            · split
              · split
                · refine ⟨[step.id], by simp, ?_⟩
                  intro x hx
                  rcases List.mem_singleton.mp hx with rfl
                  exact Or.inl (by simp [hid])
                · split
                  · rcases ih _ _ _ with ⟨extra, heq, hmem⟩
                    refine ⟨step.id :: (step_id ++ "_fallback") :: extra, ?_, ?_⟩
                    · rw [heq]
                      simp [fallbackStepOf]
                    · intro x hx
                      rcases List.mem_cons.mp hx with rfl | hx'
                      · exact Or.inl (by simp [hid])
                      · rcases List.mem_cons.mp hx' with rfl | hx''
                        · exact Or.inr ⟨step_id, by simp, rfl⟩
                        · exact hweak extra hmem x hx''
                  · rcases ih _ _ _ with ⟨extra, heq, hmem⟩
                    refine ⟨step.id :: extra, ?_, ?_⟩
                    · rw [heq]
                      simp
                    · intro x hx
                      rcases List.mem_cons.mp hx with rfl | hx'
                      · exact Or.inl (by simp [hid])
                      · exact hweak extra hmem x hx'
              · rcases ih _ _ _ with ⟨extra, heq, hmem⟩
                refine ⟨step.id :: extra, ?_, ?_⟩
                · rw [heq]
                  simp
                · intro x hx
                  rcases List.mem_cons.mp hx with rfl | hx'
                  · exact Or.inl (by simp [hid])
                  · exact hweak extra hmem x hx'

theorem string_ne_self_fallback (s : String) : s ≠ s ++ "_fallback" := by
  intro h
  have hdata : s.data.length = s.data.length + ("_fallback" : String).data.length := by
    conv_lhs => rw [h]
    simp [String.data_append]
  have h9 : ("_fallback" : String).data.length = 9 := by decide
  omega

theorem string_fallback_cancel {y s : String}
    (h : y ++ "_fallback" = s ++ "_fallback") : y = s := by
  have hdata := congrArg (fun x => x.data) h
  simp only [String.data_append] at hdata
  have h2 := List.append_cancel_right hdata
  exact congrArg String.mk h2

/-- C4: one iteration of the orchestrate loop on a step with
`on_error = fallback`, a configured fallback provider, and a failed primary
execution: the loop executes the synthesized fallback step once, overwrites
the record under the original step id with the fallback's result (whatever
its status), and continues; the entry survives to the end of the loop, and
the fallback id enters the full trace exactly once. -/
theorem orchestrate_fallback_overwrite (registry : Registry)
    (attempts : Nat → String → Outcome) (steps : List WorkflowStep)
    (eh : ErrorHandling) (winput : Dict) (step_id : String) (step : WorkflowStep)
    (rest : List String) (ex : Execution) (ctr : Nat) (tr : List String) (fa : AgentType)
    (hfind : steps.find? (fun s => s.id = step_id) = some step)
    (hdeps : dependenciesSatisfied step { ex with current_step := some step_id } = true)
    (hcond : (match step.condition with
              | some c => !evaluateCondition c { ex with current_step := some step_id } winput
              | none => false) = false)
    (herr : step.on_error = OnError.fallback)
    (hfa : step.fallback_agent = some fa)
    (hfail : (executeWorkflowStep registry attempts ctr step
        { ex with current_step := some step_id } winput).1.status = StepStatus.failed) :
    orchLoop registry attempts steps eh winput (step_id :: rest) ex ctr tr =
      orchLoop registry attempts steps eh winput rest
        { step_results := setResult
            (setResult ex.step_results step_id
              (executeWorkflowStep registry attempts ctr step
                { ex with current_step := some step_id } winput).1)
            step_id
            (executeWorkflowStep registry attempts
              (executeWorkflowStep registry attempts ctr step
                { ex with current_step := some step_id } winput).2
              (fallbackStepOf step step_id fa)
              { step_results := setResult ex.step_results step_id
                  (executeWorkflowStep registry attempts ctr step
                    { ex with current_step := some step_id } winput).1
                current_step := some step_id } winput).1
          current_step := some step_id }
        (executeWorkflowStep registry attempts
          (executeWorkflowStep registry attempts ctr step
            { ex with current_step := some step_id } winput).2
          (fallbackStepOf step step_id fa)
          { step_results := setResult ex.step_results step_id
              (executeWorkflowStep registry attempts ctr step
                { ex with current_step := some step_id } winput).1
            current_step := some step_id } winput).2
        (tr ++ [step.id, step_id ++ "_fallback"]) ∧
    (Execution.find
        { step_results := setResult
            (setResult ex.step_results step_id
              (executeWorkflowStep registry attempts ctr step
                { ex with current_step := some step_id } winput).1)
            step_id
            (executeWorkflowStep registry attempts
              (executeWorkflowStep registry attempts ctr step
                { ex with current_step := some step_id } winput).2
              (fallbackStepOf step step_id fa)
              { step_results := setResult ex.step_results step_id
                  (executeWorkflowStep registry attempts ctr step
                    { ex with current_step := some step_id } winput).1
                current_step := some step_id } winput).1
          current_step := some step_id } step_id =
      some (executeWorkflowStep registry attempts
        (executeWorkflowStep registry attempts ctr step
          { ex with current_step := some step_id } winput).2
        (fallbackStepOf step step_id fa)
        { step_results := setResult ex.step_results step_id
            (executeWorkflowStep registry attempts ctr step
              { ex with current_step := some step_id } winput).1
          current_step := some step_id } winput).1) ∧
    (step_id ∉ rest →
      ((orchLoop registry attempts steps eh winput (step_id :: rest) ex ctr tr).1).find
          step_id =
        some (executeWorkflowStep registry attempts
          (executeWorkflowStep registry attempts ctr step
            { ex with current_step := some step_id } winput).2
          (fallbackStepOf step step_id fa)
          { step_results := setResult ex.step_results step_id
              (executeWorkflowStep registry attempts ctr step
                { ex with current_step := some step_id } winput).1
            current_step := some step_id } winput).1) ∧
    (step_id ∉ rest → (step_id ++ "_fallback") ∉ rest →
      ((orchLoop registry attempts steps eh winput (step_id :: rest) ex ctr tr).2.2.1).count
          (step_id ++ "_fallback") =
        tr.count (step_id ++ "_fallback") + 1) := by
  have hid : step.id = step_id := by
    have := List.find?_some hfind
    simpa using this
  have hloop : orchLoop registry attempts steps eh winput (step_id :: rest) ex ctr tr =
      orchLoop registry attempts steps eh winput rest
        { step_results := setResult
            (setResult ex.step_results step_id
              (executeWorkflowStep registry attempts ctr step
                { ex with current_step := some step_id } winput).1)
            step_id
            (executeWorkflowStep registry attempts
              (executeWorkflowStep registry attempts ctr step
                { ex with current_step := some step_id } winput).2
              (fallbackStepOf step step_id fa)
              { step_results := setResult ex.step_results step_id
                  (executeWorkflowStep registry attempts ctr step
                    { ex with current_step := some step_id } winput).1
                current_step := some step_id } winput).1
          current_step := some step_id }
        (executeWorkflowStep registry attempts
          (executeWorkflowStep registry attempts ctr step
            { ex with current_step := some step_id } winput).2
          (fallbackStepOf step step_id fa)
          { step_results := setResult ex.step_results step_id
              (executeWorkflowStep registry attempts ctr step
                { ex with current_step := some step_id } winput).1
            current_step := some step_id } winput).2
        (tr ++ [step.id, step_id ++ "_fallback"]) := by
    rw [orchLoop]
    simp only [hfind, hdeps, hcond, hfail, herr, hfa]
    have hne : ¬ (OnError.fallback = OnError.fail) := by decide
    simp [hne, fallbackStepOf]
  have hrecorded := find_setResult_self
    (setResult ex.step_results step_id
      (executeWorkflowStep registry attempts ctr step
        { ex with current_step := some step_id } winput).1)
    step_id
    (executeWorkflowStep registry attempts
      (executeWorkflowStep registry attempts ctr step
        { ex with current_step := some step_id } winput).2
      (fallbackStepOf step step_id fa)
      { step_results := setResult ex.step_results step_id
          (executeWorkflowStep registry attempts ctr step
            { ex with current_step := some step_id } winput).1
        current_step := some step_id } winput).1
  refine ⟨hloop, hrecorded, ?_, ?_⟩
  · intro hnot
    rw [hloop, orchLoop_find_outside registry attempts steps eh winput rest _ _ _ step_id hnot]
    exact hrecorded
  · intro hnot hnotf
    rw [hloop]
    rcases orchLoop_trace_shape registry attempts steps eh winput rest _ _
      (tr ++ [step.id, step_id ++ "_fallback"]) with ⟨extra, heq, hmem⟩
    rw [heq]
    have hextra : (step_id ++ "_fallback") ∉ extra := by
      intro hmem'
      rcases hmem _ hmem' with h' | ⟨y, hy, hxy⟩
      · exact hnotf h'
      · have : y = step_id := string_fallback_cancel hxy.symm
        rw [this] at hy
        exact hnot hy
    have hcount0 : extra.count (step_id ++ "_fallback") = 0 :=
      List.count_eq_zero.mpr hextra
    have hcne : step_id ≠ step_id ++ "_fallback" := string_ne_self_fallback step_id
    simp [List.count_append, List.count_cons, hcount0, hid, hcne]

/-- An agent for the task type. -/
def demoTaskAgent : Agent :=
  { agent_type := .task
    canHandle := fun _ _ => (true, 1)
    shouldHandoff := fun _ _ => none
    execute := fun _ _ => .error "x" }

/-- A registry holding the planner and task agents. -/
def demoRegistryTwo : Registry := [(.planner, demoFailingAgent), (.task, demoTaskAgent)]

/-- A step with a fallback provider configured. -/
def demoFallbackStep : WorkflowStep :=
  { id := "f", name := "F", agent := .planner, action := "a", input := []
    on_error := .fallback, fallback_agent := some .task }

/-- Outcomes that always return a failed result. -/
def demoFailAttempts : Nat → String → Outcome := fun _ _ => .success demoFailResult

/-- Witness for C4: a one-step workflow whose primary and fallback both
fail; the synthesized fallback id appears exactly once in the trace. -/
theorem orchestrate_fallback_overwrite_witness :
    ((orchLoop demoRegistryTwo demoFailAttempts [demoFallbackStep] .continueH []
        ["f"] {} 0 []).2.2.1).count ("f" ++ "_fallback") =
      List.count ("f" ++ "_fallback") [] + 1 :=
  (orchestrate_fallback_overwrite demoRegistryTwo demoFailAttempts [demoFallbackStep]
    .continueH [] "f" demoFallbackStep [] {} 0 [] .task rfl rfl rfl rfl rfl rfl).2.2.2
    (by simp) (by simp)

/-! ## C1: topological ordering -/

/-- C1: on a well-formed step set (unique ids, dependency sets of existing
ids), an acyclic dependency relation makes `_topological_sort` return an
order containing every step id exactly once with each step after all its
dependencies; a cyclic relation makes it raise the circular-dependency
error, in which case `orchestrate` returns a failed response with an empty
result map before executing any step (empty execution trace). -/
theorem topologicalSort_correct (steps : List WorkflowStep)
    (hnd : (steps.map (·.id)).Nodup)
    (hdepnd : ∀ s ∈ steps, s.depends_on.Nodup)
    (hsub : ∀ s ∈ steps, ∀ d ∈ s.depends_on, d ∈ stepIds steps) :
    ((∀ a, ¬ Relation.TransGen (stepEdge steps) a a) →
      ∃ order, topologicalSort steps = Except.ok order ∧
        order.Perm (stepIds steps) ∧
        ∀ r1 b r2, order = r1 ++ b :: r2 → ∀ d, stepEdge steps b d → d ∈ r1) ∧
    ((∃ a, Relation.TransGen (stepEdge steps) a a) →
      topologicalSort steps =
        Except.error "Circular dependency detected in workflow steps" ∧
      ∀ (registry : Registry) (attempts : Nat → String → Outcome)
        (eid wid wname wdesc : String) (eh : ErrorHandling) (wtimeout : Option Int)
        (winput : Dict) (active : ActiveMap),
        (orchestrate registry attempts eid ⟨wid, wname, wdesc, steps, eh, wtimeout⟩
            winput active).2.2 = [] ∧
        (orchestrate registry attempts eid ⟨wid, wname, wdesc, steps, eh, wtimeout⟩
            winput active).1.status = RunStatus.failed ∧
        (orchestrate registry attempts eid ⟨wid, wname, wdesc, steps, eh, wtimeout⟩
            winput active).1.results = []) := by
  constructor
  · exact topologicalSort_dag hnd hdepnd hsub
  · intro hcyc
    have herr := topologicalSort_cycle hnd hdepnd hcyc
    refine ⟨herr, ?_⟩
    intro registry attempts eid wid wname wdesc eh wtimeout winput active
    unfold orchestrate
    simp only [herr]
    exact ⟨trivial, trivial, trivial⟩

/-- A dependency-free step `a`. -/
def demoStepA : WorkflowStep :=
  { id := "a", name := "A", agent := .task, action := "x", input := [] }

/-- A step `b` depending on `a`. -/
def demoStepB : WorkflowStep :=
  { id := "b", name := "B", agent := .task, action := "x", input := [], depends_on := ["a"] }

/-- A two-step acyclic workflow, listed dependents-first. -/
def demoDagSteps : List WorkflowStep := [demoStepB, demoStepA]

/-- A step depending on itself. -/
def demoStepC : WorkflowStep :=
  { id := "c", name := "C", agent := .task, action := "x", input := [], depends_on := ["c"] }

/-- A one-step cyclic workflow. -/
def demoCycSteps : List WorkflowStep := [demoStepC]

theorem demoDag_edges {x y : String} (h : stepEdge demoDagSteps x y) :
    x = "b" ∧ y = "a" := by
  rcases h with ⟨s, hs, hid, hdep⟩
  rcases List.mem_cons.mp hs with rfl | hs'
  · refine ⟨hid.symm, ?_⟩
    simpa [demoStepB] using hdep
  · rcases List.mem_cons.mp hs' with rfl | hs''
    · simp [demoStepA] at hdep
    · cases hs''

theorem demoDag_acyclic : ∀ a, ¬ Relation.TransGen (stepEdge demoDagSteps) a a := by
  have htg : ∀ x y, Relation.TransGen (stepEdge demoDagSteps) x y → x = "b" ∧ y = "a" := by
    intro x y h
    induction h with
    | single h' => exact demoDag_edges h'
    | tail _ hby ih =>
        rcases ih with ⟨hx, hb⟩
        rcases demoDag_edges hby with ⟨hb', hy⟩
        rw [hb] at hb'
        exact absurd hb' (by decide)
  intro a h
  rcases htg a a h with ⟨h1, h2⟩
  rw [h1] at h2
  exact absurd h2 (by decide)

/-- Witness for C1: the acyclic two-step workflow sorts successfully into a
valid order, and the self-dependent workflow raises the circular-dependency
error with an empty execution trace. -/
theorem topologicalSort_correct_witness :
    (∃ order, topologicalSort demoDagSteps = Except.ok order ∧
        order.Perm (stepIds demoDagSteps) ∧
        ∀ r1 b r2, order = r1 ++ b :: r2 → ∀ d, stepEdge demoDagSteps b d → d ∈ r1) ∧
    topologicalSort demoCycSteps =
      Except.error "Circular dependency detected in workflow steps" ∧
    (orchestrate [] (fun _ _ => .timeout) "e1"
        ⟨"w", "w", "", demoCycSteps, .fail_fast, none⟩ [] (fun _ => none)).2.2 = [] := by
  have hdag := (topologicalSort_correct demoDagSteps (by decide) (by decide)
    (by decide)).1 demoDag_acyclic
  have hcyc := (topologicalSort_correct demoCycSteps (by decide) (by decide)
    (by decide)).2
    ⟨"c", Relation.TransGen.single ⟨demoStepC, by simp [demoCycSteps], rfl, by simp [demoStepC]⟩⟩
  exact ⟨hdag, hcyc.1,
    (hcyc.2 [] (fun _ _ => .timeout) "e1" "w" "w" "" .fail_fast none [] (fun _ => none)).1⟩

end ProfDash
